import Mathlib

/-!
# go-netconf: message framing, session handshake and RPC codec

A shallow embedding of the protocol layer of the NETCONF client
(`transport.go`, `session.go`, `rpc.go`) together with theorems about it.

Conventions of the embedding:

* a Go `[]byte` is a `List Nat` whose elements are the byte values;
* a Go `error` is a value of `GoError`, `nil` is `none`;
* the underlying `io.ReadWriteCloser` is a script: the results that its successive
  `Read` calls return and the outcomes of its successive `Write` calls, together with
  a log of what has been written.
-/

namespace Netconf

/-! ## Errors -/

/-- An error reported by the remote (`RPCError`, rpc.go). The field `Type` of the source
is called `ErrType` here, `Type` being reserved. -/
structure RPCError where
  ErrType : String
  Tag : String
  Severity : String
  Path : String
  Message : String
  Info : String
deriving DecidableEq, Repr

/-- Go `error` values that occur in the client: the sentinel `io.EOF`, an error made by
`fmt.Errorf` with the given text, an error value of the underlying stream other than
`io.EOF`, and a `*RPCError` used as an error. -/
inductive GoError where
  | EOF
  | errorf (msg : String)
  | stream (code : Nat)
  | rpc (e : RPCError)
deriving DecidableEq, Repr

/-- Equality of results is decidable, so that closed statements can be evaluated. -/
instance instDecidableEqExcept {ε α : Type} [DecidableEq ε] [DecidableEq α] :
    DecidableEq (Except ε α)
  | .ok a, .ok b =>
    if h : a = b then isTrue (congrArg Except.ok h)
    else isFalse (fun h1 => h (Except.ok.inj h1))
  | .error a, .error b =>
    if h : a = b then isTrue (congrArg Except.error h)
    else isFalse (fun h1 => h (Except.error.inj h1))
  | .ok _, .error _ => isFalse (fun h1 => Except.noConfusion h1)
  | .error _, .ok _ => isFalse (fun h1 => Except.noConfusion h1)

/-! ## The underlying byte stream -/

/-- What one call of `Read(buf)` returns: the bytes it stored at the front of `buf`
(their number is the `n` of the source) and the error. -/
structure ReadResult where
  data : List Nat
  err : Option GoError
deriving DecidableEq, Repr

/-- A read that delivers `d` with a nil error. -/
def ReadResult.ok (d : List Nat) : ReadResult := ⟨d, none⟩

/-- A `Write` call that fails: the stream takes the first `n` bytes and returns `err`. -/
structure WriteFault where
  n : Nat
  err : GoError
deriving DecidableEq, Repr

/-- The `io.ReadWriteCloser` embedded in `transportBase`.
`reads` are the results of the coming `Read` calls (after the last one the stream is at
its end and `Read` returns `0, io.EOF`); `faults` are the outcomes of the coming `Write`
calls (`none` is success, as is every call after the list is used up); `written` are the
bytes the stream has accepted and `calls` the arguments of the `Write` calls made so far. -/
structure ReadWriteCloser where
  reads : List ReadResult := []
  faults : List (Option WriteFault) := []
  written : List Nat := []
  calls : List (List Nat) := []
deriving DecidableEq, Repr

/-- The transport object base (`transportBase`, transport.go). -/
structure transportBase where
  rwc : ReadWriteCloser
  chunkedFraming : Bool := false
deriving DecidableEq, Repr

/-! ## Byte search -/

/-- Position of the first occurrence of `sep` in a list, if there is one. -/
def indexOfSub (sep : List Nat) : List Nat → Option Nat
  | [] => if sep.isPrefixOf [] then some 0 else none
  | x :: xs =>
    if sep.isPrefixOf (x :: xs) then some 0 else (indexOfSub sep xs).map (· + 1)

/-- Go's `bytes.Index(s, sep)`: the index of the first instance of `sep` in `s`, or `-1`
if `sep` is not present in `s`. -/
def bytesIndex (s sep : List Nat) : Int :=
  match indexOfSub sep s with
  | some i => (i : Int)
  | none => -1

/-- The conversion `[]byte(s)`: the UTF-8 bytes of the text. -/
def toBytes (s : String) : List Nat := (s.data.flatMap String.utf8EncodeChar).map UInt8.toNat

/-! ## transport.go -/

/-- The message separator (`TransportMessageSeparator`). -/
def TransportMessageSeparator : String := "]]>]]>"

/-- A transport wait function (`TransportWaitFunc`): from the read buffer to an index
and an error. -/
abbrev TransportWaitFunc := List Nat → Int × Option GoError

/-- The read buffer of `WaitForFunc`: `make([]byte, 4096)`. -/
def newBuf : List Nat := List.replicate 4096 0

/-- The buffer after a `Read` that stored `d` at its front: the rest keeps what it held. -/
def fillBuf (buf d : List Nat) : List Nat := d ++ buf.drop d.length

/-- The loop of `transportBase.WaitForFunc` over the coming reads, with the read buffer
`buf` and the output accumulated so far `out`. Returns the result and the reads left.
An index above the length of the buffer, on which `buf[0:end]` panics in the source, is
not modelled: the wait functions of the program return an index of `bytes.Index` in the
buffer. -/
def WaitForFunc.loop (fn : TransportWaitFunc) :
    List ReadResult → List Nat → List Nat → Except GoError (List Nat) × List ReadResult
  -- the stream is at its end: `Read` returns `0, io.EOF`, and `n == 0` is tested first
  | [], _, _ => (.error (.errorf "transport base read no data"), [])
  | r :: rest, buf, out =>
    -- n, err := t.Read(buf)
    let n := r.data.length
    let buf := fillBuf buf r.data
    if n = 0 then
      (.error (.errorf "transport base read no data"), rest)
    else
      match r.err with
      -- err != nil && err == io.EOF
      | some .EOF => (.error .EOF, rest)
      -- err != nil: break, then the return after the loop
      | some _ => (.error (.errorf "transport base wait-function failed"), rest)
      | none =>
        -- end, err := fn(buf)
        match fn buf with
        | (_, some e) => (.error e, rest)
        | (idx, none) =>
          if idx > -1 then
            -- out.Write(buf[0:end]); return out.Bytes(), nil
            (.ok (out ++ buf.take idx.toNat), rest)
          else
            -- out.Write(buf[0:n])
            WaitForFunc.loop fn rest buf (out ++ buf.take n)

/-- The method `transportBase.WaitForFunc`. -/
def transportBase.WaitForFunc (t : transportBase) (fn : TransportWaitFunc) :
    Except GoError (List Nat) × transportBase :=
  let r := WaitForFunc.loop fn t.rwc.reads newBuf []
  (r.1, { t with rwc := { t.rwc with reads := r.2 } })

/-- The method `transportBase.WaitForBytes`: wait for a byte subsequence. -/
def transportBase.WaitForBytes (t : transportBase) (b : List Nat) :
    Except GoError (List Nat) × transportBase :=
  t.WaitForFunc (fun buf => (bytesIndex buf b, none))

/-- The method `transportBase.WaitForString`; a Go string is its bytes. -/
def transportBase.WaitForString (t : transportBase) (s : List Nat) :
    Except GoError (List Nat) × transportBase :=
  match t.WaitForBytes s with
  | (.error e, t1) => (.error e, t1)
  | (.ok out, t1) => (.ok out, t1)

/-- The method `transportBase.Recieve`. -/
def transportBase.Recieve (t : transportBase) : Except GoError (List Nat) × transportBase :=
  t.WaitForBytes (toBytes TransportMessageSeparator)

/-- A transport whose stream delivers the given reads. -/
def readerOf (reads : List ReadResult) : transportBase := { rwc := { reads := reads } }

/-- The method `Write` of the underlying stream: the next scripted outcome decides
whether the call succeeds; the bytes taken are appended to `written`, the argument to
`calls`. Returns `n`, the error, and the stream afterwards. -/
def ReadWriteCloser.Write (s : ReadWriteCloser) (p : List Nat) :
    (Nat × Option GoError) × ReadWriteCloser :=
  match s.faults with
  | [] =>
    ((p.length, none), { s with written := s.written ++ p, calls := s.calls ++ [p] })
  | none :: fs =>
    ((p.length, none),
      { s with faults := fs, written := s.written ++ p, calls := s.calls ++ [p] })
  | some f :: fs =>
    (((p.take f.n).length, some f.err),
      { s with faults := fs, written := s.written ++ p.take f.n, calls := s.calls ++ [p] })

/-- The method `transportBase.Send`: a well formatted message, with the framing
delimiter. -/
def transportBase.Send (t : transportBase) (data : List Nat) :
    Option GoError × transportBase :=
  -- if _, err := t.Write(data); err != nil { return err }
  match t.rwc.Write data with
  | ((_, some err), s1) => (some err, { t with rwc := s1 })
  | ((_, none), s1) =>
    -- if _, err := t.Write([]byte(TransportMessageSeparator)); err != nil { return err }
    match s1.Write (toBytes TransportMessageSeparator) with
    | ((_, some err), s2) => (some err, { t with rwc := s2 })
    | ((_, none), s2) =>
      -- if _, err := t.Write([]byte{'\n'}); err != nil { return err }
      match s2.Write [10] with
      | ((_, some err), s3) => (some err, { t with rwc := s3 })
      | ((_, none), s3) => (none, { t with rwc := s3 })

/-- A transport whose stream has the given outcomes for its coming writes. -/
def writerOf (faults : List (Option WriteFault)) : transportBase :=
  { rwc := { faults := faults } }

/-! ## The hello message and the `Transport` interface -/

/-- A capability identifier (`Capability`, a string type). -/
abbrev Capability := String

/-- Modelled from the spec: the declaration of `CapabilityNetconfBase` is not among the
sources; the spec calls it "the base NETCONF capability", and the test of `SendHello`
expects this text for it. -/
def CapabilityNetconfBase : Capability := "urn:ietf:params:xml:ns:netconf:base:1.0"

/-- The hello message (`TransportHelloMessage`). A `SessionID` of `0` is the zero value:
with `omitempty` the message then carries no session id. The field `XMLName` only names
the element for the XML library and is left out. -/
structure TransportHelloMessage where
  Capabilities : List Capability := []
  SessionID : Int := 0
deriving DecidableEq, Repr

/-- The interface `Transport`, over the state `σ` of the object behind it: every method
takes the state and returns its results with the state afterwards. -/
structure Transport (σ : Type) where
  Send : List Nat → σ → Option GoError × σ
  Recieve : σ → Except GoError (List Nat) × σ
  Close : σ → Option GoError × σ
  SendHello : TransportHelloMessage → σ → Option GoError × σ
  ReceiveHello : σ → Except GoError TransportHelloMessage × σ

/-- A call of a method of `Transport`, with its arguments. -/
inductive Call where
  | Send (data : List Nat)
  | Recieve
  | Close
  | SendHello (msg : TransportHelloMessage)
  | ReceiveHello
deriving DecidableEq, Repr

/-- The transport `t` with a record of the calls made on it, in order. -/
def Transport.logged {σ : Type} (t : Transport σ) : Transport (σ × List Call) where
  Send := fun data st => ((t.Send data st.1).1, ((t.Send data st.1).2, st.2 ++ [Call.Send data]))
  Recieve := fun st => ((t.Recieve st.1).1, ((t.Recieve st.1).2, st.2 ++ [Call.Recieve]))
  Close := fun st => ((t.Close st.1).1, ((t.Close st.1).2, st.2 ++ [Call.Close]))
  SendHello := fun msg st =>
    ((t.SendHello msg st.1).1, ((t.SendHello msg st.1).2, st.2 ++ [Call.SendHello msg]))
  ReceiveHello := fun st =>
    ((t.ReceiveHello st.1).1, ((t.ReceiveHello st.1).2, st.2 ++ [Call.ReceiveHello]))

/-! ## rpc.go -/

/-- The interface `RPCMethod`: a value that renders itself by `MarshalRPCMethod`. -/
structure RPCMethod where
  MarshalRPCMethod : String
deriving DecidableEq, Repr

/-- A raw RPC method is just a plain string (`RPCMethodRaw`). -/
def RPCMethodRaw (m : String) : RPCMethod := ⟨m⟩

/-- The constructor `RPCMethodLock`; `fmt.Sprintf` with `%s` inserts the text. -/
def RPCMethodLock (target : String) : RPCMethod :=
  RPCMethodRaw ("<lock><target><" ++ target ++ "/></target></lock>")

/-- The constructor `MethodUnlock`. -/
def MethodUnlock (target : String) : RPCMethod :=
  RPCMethodRaw ("<unlock><target><" ++ target ++ "/></target></unlock>")

/-- The constructor `MethodGetConfig`. -/
def MethodGetConfig (source : String) : RPCMethod :=
  RPCMethodRaw ("<get-config><source><" ++ source ++ "/></source></get-config>")

/-- A message to send to the remote (`RPCMessage`). -/
structure RPCMessage where
  ID : String
  Methods : List RPCMethod
deriving DecidableEq, Repr

/-- The digits of `fmt` for the verb `%x` (`ldigits`). -/
def ldigits : List Char := "0123456789abcdefx".data

/-- The verb `%x` of `fmt.Sprintf` on a byte slice: two lower-case hexadecimal digits for
each byte, the high nibble first. -/
def fmtX (bs : List Nat) : List Char :=
  bs.flatMap (fun c => [ldigits.getD (c >>> 4) '?', ldigits.getD (c &&& 0xF) '?'])

/-- The slice expression `b[lo:hi]`. -/
def slice (b : List Nat) (lo hi : Nat) : List Nat := (b.take hi).drop lo

/-- The function `rpcUUID`: a simple UUID for rpc messages. The argument is the content
of `b` after `io.ReadFull(rand.Reader, b)`: the 16 bytes drawn. -/
def rpcUUID (rnd : List Nat) : String :=
  let b := rnd
  -- b[6] = (b[6] & 0x0f) | 0x40
  let b := b.set 6 ((b.getD 6 0 &&& 0x0f) ||| 0x40)
  -- b[8] = (b[8] & 0x3f) | 0x80
  let b := b.set 8 ((b.getD 8 0 &&& 0x3f) ||| 0x80)
  -- fmt.Sprintf("%x-%x-%x-%x-%x", b[0:4], b[4:6], b[6:8], b[8:10], b[10:])
  String.mk (fmtX (slice b 0 4) ++ '-' :: fmtX (slice b 4 6) ++ '-' :: fmtX (slice b 6 8)
    ++ '-' :: fmtX (slice b 8 10) ++ '-' :: fmtX (b.drop 10))

/-- The constructor `NewRPCMessage`, with the random draw of `rpcUUID` as an argument. -/
def NewRPCMessage (rnd : List Nat) (methods : List RPCMethod) : RPCMessage :=
  { ID := rpcUUID rnd, Methods := methods }

/-- The start element handed to `MarshalXML` (`xml.StartElement`): its local name. -/
structure StartElement where
  Local : String
deriving DecidableEq, Repr

/-- What `encoding/xml` writes for one character of an attribute value or of text
(`EscapeText`): the five markup characters and tab, newline and carriage return become
references, a character outside the XML character range becomes U+FFFD. -/
def xmlEscapeChar (c : Char) : List Char :=
  if c = '"' then "&#34;".data
  else if c = '\'' then "&#39;".data
  else if c = '&' then "&amp;".data
  else if c = '<' then "&lt;".data
  else if c = '>' then "&gt;".data
  else if c = '\t' then "&#x9;".data
  else if c = '\n' then "&#xA;".data
  else if c = '\r' then "&#xD;".data
  else if c.toNat < 0x20 ∨ c.toNat = 0xFFFE ∨ c.toNat = 0xFFFF then [Char.ofNat 0xFFFD]
  else [c]

/-- The escaping of a whole string (`EscapeString`). -/
def xmlEscapeString (s : String) : String := String.mk (s.data.flatMap xmlEscapeChar)

/-- The element that `Encoder.EncodeElement` of `encoding/xml` writes for the value
`struct { ID string "xml:message-id,attr"; Methods []byte "xml:,innerxml" }` under the
start element `start`: the start tag with the attribute `message-id`, its value escaped,
the inner XML verbatim, and the end tag. -/
def EncodeElement (ID : String) (Methods : String) (start : StartElement) : String :=
  "<" ++ start.Local ++ " message-id=\"" ++ xmlEscapeString ID ++ "\">"
    ++ Methods ++ "</" ++ start.Local ++ ">"

/-- The method `RPCMessage.MarshalXML`. -/
def RPCMessage.MarshalXML (m : RPCMessage) (start : StartElement) : Except GoError String :=
  -- for _, method := range m.Methods { buf.WriteString(method.MarshalRPCMethod()) }
  let buf := m.Methods.foldl (fun acc method => acc ++ method.MarshalRPCMethod) ""
  -- start.Name.Local = "rpc"; return e.EncodeElement(data, start)
  let start := { start with Local := "rpc" }
  .ok (EncodeElement m.ID buf start)

/-- The call `xml.Marshal(m)` for an `*RPCMessage`: the library hands the start element
named after the type to the method `MarshalXML` of the value. -/
def xmlMarshalRPCMessage (m : RPCMessage) : Except GoError String :=
  m.MarshalXML { Local := "RPCMessage" }

/-- The remote's response to valid RPC messages (`RPCReply`). `Data` and `RawReply` are
strings made from bytes and kept as bytes. `XMLName` is left out as in the hello
message. -/
structure RPCReply where
  Errors : List RPCError := []
  Data : List Nat := []
  Ok : Bool := false
  RawReply : List Nat := []
deriving DecidableEq, Repr

/-! ## session.go -/

/-- A session (`Session`), over the state `σ` of its transport. -/
structure Session (σ : Type) where
  ID : Int
  ServerCapabilities : List Capability
  Transport : Transport σ
  ErrOnWarnings : Bool := false

/-- The function `NewSession`. -/
def NewSession {σ : Type} (t : Transport σ) (st : σ) : Except GoError (Session σ) × σ :=
  -- recieve hello message from remote
  match t.ReceiveHello st with
  | (.error err, st1) => (.error err, st1)
  | (.ok remoteHello, st1) =>
    -- send hello message with default capabilities
    let capabilities := [CapabilityNetconfBase]
    match t.SendHello { Capabilities := capabilities } st1 with
    | (some err, st2) => (.error err, st2)
    | (none, st2) =>
      (.ok { ID := remoteHello.SessionID
             ServerCapabilities := remoteHello.Capabilities
             Transport := t }, st2)

/-- The loop of `Session.Exec` over the errors of the reply: the first error to act upon,
if there is one. -/
def Exec.firstError (ErrOnWarnings : Bool) : List RPCError → Option RPCError
  | [] => none
  | rpcErr :: rest =>
    if rpcErr.Severity = "error" ∨ ErrOnWarnings = true then some rpcErr
    else Exec.firstError ErrOnWarnings rest

/-- The method `Session.Exec`. The decoder `xmlUnmarshal` stands for
`xml.Unmarshal(res, reply)` of the XML library: from the bytes and the reply to fill, to
the filled reply or an error. `rnd` is the random draw of the message identifier.
Returns the reply (or nil), the error (or nil), and the state of the transport. -/
def Session.Exec {σ : Type} (s : Session σ)
    (xmlUnmarshal : List Nat → RPCReply → Except GoError RPCReply)
    (rnd : List Nat) (methods : List RPCMethod) (st : σ) :
    (Option RPCReply × Option GoError) × σ :=
  -- prepare RPC message
  match xmlMarshalRPCMessage (NewRPCMessage rnd methods) with
  | .error err => ((none, some err), st)
  | .ok req =>
    match s.Transport.Send (toBytes req) st with
    | (some err, st1) => ((none, some err), st1)
    | (none, st1) =>
      match s.Transport.Recieve st1 with
      | (.error err, st2) => ((none, some err), st2)
      | (.ok res, st2) =>
        -- unmarshal the reply
        match xmlUnmarshal res { RawReply := res } with
        | .error err => ((none, some err), st2)
        | .ok reply =>
          -- handle RPC errors
          match Exec.firstError s.ErrOnWarnings reply.Errors with
          | some rpcErr => ((some reply, some (.rpc rpcErr)), st2)
          | none => ((some reply, none), st2)

/-! ## transport.go: the hello exchange -/

/-- The XML library on the hello message, which is not part of the program:
`Marshal` stands for `xml.Marshal(msg)` and `Unmarshal` for `xml.Unmarshal(res, msg)`,
from the bytes and the message to fill, to the filled message or an error. -/
structure HelloCodec where
  Marshal : TransportHelloMessage → Except GoError (List Nat)
  Unmarshal : List Nat → TransportHelloMessage → Except GoError TransportHelloMessage

/-- The method `transportBase.SendHello`. -/
def transportBase.SendHello (t : transportBase) (codec : HelloCodec)
    (msg : TransportHelloMessage) : Option GoError × transportBase :=
  -- req, err := xml.Marshal(msg)
  match codec.Marshal msg with
  | .error err => (some err, t)
  | .ok req =>
    -- if err = t.Send(req); err != nil { return err }
    match t.Send req with
    | (some err, t1) => (some err, t1)
    | (none, t1) => (none, t1)

/-- The method `transportBase.ReceiveHello`. -/
def transportBase.ReceiveHello (t : transportBase) (codec : HelloCodec) :
    Except GoError TransportHelloMessage × transportBase :=
  -- msg := &TransportHelloMessage{}; res, err := t.Recieve()
  match t.Recieve with
  | (.error err, t1) => (.error err, t1)
  | (.ok res, t1) =>
    -- if err = xml.Unmarshal(res, msg); err != nil { return nil, err }
    match codec.Unmarshal res {} with
    | .error err => (.error err, t1)
    | .ok msg => (.ok msg, t1)

/-- The method `Close` that `transportBase` takes from its stream; the stream of the test
suite (`testReadCloser`) returns nil. -/
def transportBase.Close (t : transportBase) : Option GoError × transportBase := (none, t)

/-- The client (`Client`): it holds its session. -/
structure Client (σ : Type) where
  session : Session σ

/-- The method `Client.GetConfig`: a request to netconf for configuration data. Returns
the bytes (or nil) with the error (or nil), and the state of the transport. `Exec` returns
a reply whenever it returns no error; without one the conversion of `reply.Data`
dereferences nil, which is the last case. -/
def Client.GetConfig {σ : Type} (c : Client σ)
    (xmlUnmarshal : List Nat → RPCReply → Except GoError RPCReply)
    (rnd : List Nat) (typ : String) (st : σ) : (Option (List Nat) × Option GoError) × σ :=
  -- reply, err := c.session.Exec(MethodGetConfig(typ))
  match c.session.Exec xmlUnmarshal rnd [MethodGetConfig typ] st with
  -- if err != nil { return nil, err }
  | ((_, some err), st1) => ((none, some err), st1)
  -- return []byte(reply.Data), nil
  | ((some reply, none), st1) => ((some reply.Data, none), st1)
  | ((none, none), st1) => ((none, some (.errorf "nil pointer dereference")), st1)

/-! ## netconf/transport.go: the earlier transport -/

/-- The message separator of the earlier transport (`MSG_SEPERATOR`). -/
def MSG_SEPERATOR : String := "]]>]]>"

/-- The earlier transport object (`transportBasicIO`). -/
structure transportBasicIO where
  rwc : ReadWriteCloser
  chunkedFraming : Bool := false
deriving DecidableEq, Repr

/-- The method `transportBasicIO.Send`: the three writes, whose results are dropped, and
`return nil`. -/
def transportBasicIO.Send (t : transportBasicIO) (data : List Nat) :
    Option GoError × transportBasicIO :=
  -- t.Write(data)
  let s1 := (t.rwc.Write data).2
  -- t.Write([]byte(MSG_SEPERATOR))
  let s2 := (s1.Write (toBytes MSG_SEPERATOR)).2
  -- t.Write([]byte("\n"))
  let s3 := (s2.Write [10]).2
  -- return nil // TODO: Implement error handling!
  (none, { t with rwc := s3 })

/-- The loop of `transportBasicIO.WaitForBytes` over the coming reads, with the read
buffer `buf` and the output so far `out`. Returns the result and the reads left. -/
def transportBasicIO.WaitForBytes.loop (m : List Nat) :
    List ReadResult → List Nat → List Nat → Except GoError (List Nat) × List ReadResult
  -- the stream is at its end: `Read` returns `0, io.EOF`, and `n == 0` is tested first
  | [], _, _ => (.error (.errorf "WaitForBytes read no data."), [])
  | r :: rest, buf, out =>
    -- n, err := t.Read(buf)
    let n := r.data.length
    let buf := fillBuf buf r.data
    if n = 0 then
      (.error (.errorf "WaitForBytes read no data."), rest)
    else
      match r.err with
      | some err =>
        -- if err != io.EOF { return nil, err }; break, then the return after the loop
        if err ≠ GoError.EOF then (.error err, rest)
        else (.error (.errorf "WaitForBytes failed"), rest)
      | none =>
        -- end := bytes.Index(buf, m)
        let idx := bytesIndex buf m
        if idx > -1 then
          -- out.Write(buf[0:end]); return out.Bytes(), nil
          (.ok (out ++ buf.take idx.toNat), rest)
        else
          -- out.Write(buf[0:n])
          transportBasicIO.WaitForBytes.loop m rest buf (out ++ buf.take n)

/-- The method `transportBasicIO.WaitForBytes`. -/
def transportBasicIO.WaitForBytes (t : transportBasicIO) (m : List Nat) :
    Except GoError (List Nat) × transportBasicIO :=
  let r := transportBasicIO.WaitForBytes.loop m t.rwc.reads newBuf []
  (r.1, { t with rwc := { t.rwc with reads := r.2 } })

/-- The method `transportBasicIO.Receive`. -/
def transportBasicIO.Receive (t : transportBasicIO) :
    Except GoError (List Nat) × transportBasicIO :=
  t.WaitForBytes (toBytes MSG_SEPERATOR)

/-! ## The XML library on the hello message

Go's `encoding/xml` is not part of the program. What follows is a model of what
`xml.Marshal` writes for a `TransportHelloMessage` and of what `xml.Unmarshal` reads into
one, for documents over ASCII made of start tags without attributes, end tags, character
data without references, and comments. On any other document (an attribute, a reference,
a processing instruction, a directive, a CDATA section, an empty-element tag, a name with
a colon, a byte above 127 in a name or in character data) the model of the decoder returns
the error `outside the model of encoding/xml` and says nothing about the library. The
line number in the text of a syntax error and the limit of the library on the depth of
the elements are left out. -/

/-- The error of the model of the decoder on a document outside its scope. -/
def xmlOutside : GoError := .errorf "outside the model of encoding/xml"

/-- A syntax error of the decoder (`*xml.SyntaxError`), without its line number. -/
def xmlSyntax (msg : String) : GoError := .errorf ("XML syntax error: " ++ msg)

/-- A token of the decoder (`xml.Token`), names and data as bytes. -/
inductive XMLToken where
  | StartElement (name : List Nat)
  | EndElement (name : List Nat)
  | CharData (data : List Nat)
  | Comment (data : List Nat)
deriving DecidableEq, Repr

/-- The bytes of an XML name over ASCII (`isNameByte`): letters, digits, `_`, `:`, `.`
and `-`. -/
def isNameByte (c : Nat) : Bool :=
  (65 ≤ c && c ≤ 90) || (97 ≤ c && c ≤ 122) || (48 ≤ c && c ≤ 57)
    || c = 95 || c = 58 || c = 46 || c = 45

/-- The bytes a name may begin with (`isName` on the first byte): letters, `_` and `:`. -/
def isNameStart (c : Nat) : Bool :=
  (65 ≤ c && c ≤ 90) || (97 ≤ c && c ≤ 122) || c = 95 || c = 58

/-- The longest run of name bytes at the front of the input, and what follows it. -/
def readName : List Nat → List Nat × List Nat
  | [] => ([], [])
  | c :: cs =>
    if isNameByte c then ((c :: (readName cs).1), (readName cs).2) else ([], c :: cs)

/-- The method `Decoder.space`: the input after its leading blanks, tabs, carriage returns
and newlines. -/
def skipSpace : List Nat → List Nat
  | [] => []
  | c :: cs => if c = 32 ∨ c = 13 ∨ c = 10 ∨ c = 9 then skipSpace cs else c :: cs

/-- The Go conversion `string(b)` of bytes over ASCII. -/
def bytesText (b : List Nat) : String := String.mk (b.map Char.ofNat)

/-- The name of an element (`Decoder.nsname`) at the front of the input, with the input
after it. The decoder reads one byte beyond the name, so the input may not end with it. -/
def readElementName (what : String) (input : List Nat) : Except GoError (List Nat × List Nat) :=
  match input with
  | [] => .error (xmlSyntax "unexpected EOF")
  | c :: _ =>
    if 128 ≤ c then .error xmlOutside
    else if ¬ isNameByte c then .error (xmlSyntax ("expected element name after " ++ what))
    else
      let r := readName input
      match r.2 with
      | [] => .error (xmlSyntax "unexpected EOF")
      | d :: _ =>
        if 128 ≤ d then .error xmlOutside
        else if ¬ isNameStart c then
          .error (xmlSyntax ("invalid XML name: " ++ bytesText r.1))
        else if 58 ∈ r.1 then .error xmlOutside
        else .ok r

/-- The loop of `Decoder.text` for character data: `b0` and `b1` are the two bytes read
last, `acc` the data so far. It stops before a `<` or at the end of the input. -/
def scanText : Nat → Nat → List Nat → List Nat → Except GoError (List Nat × List Nat)
  | _, _, [], acc => .ok (acc, [])
  | b0, b1, b :: rest, acc =>
    -- it is an error for ]]> to appear in ordinary text
    if b0 = 93 ∧ b1 = 93 ∧ b = 62 then
      .error (xmlSyntax "unescaped ]]> not in CDATA section")
    -- stop reading text if we see a <
    else if b = 60 then .ok (acc, b :: rest)
    -- a reference
    else if b = 38 then .error xmlOutside
    -- we must rewrite unescaped \r and \r\n into \n
    else if b = 13 then scanText b1 b rest (acc ++ [10])
    else if b1 = 13 ∧ b = 10 then scanText b1 b rest acc
    else scanText b1 b rest (acc ++ [b])

/-- The check of `Decoder.text` on the data read: over ASCII, every character is a tab, a
newline, a carriage return or at least a blank (`isInCharacterRange`). The text of the
error leaves out the code of the character. -/
def checkText : List Nat → Except GoError Unit
  | [] => .ok ()
  | b :: rest =>
    if 128 ≤ b then .error xmlOutside
    else if b = 9 ∨ b = 10 ∨ b = 13 ∨ 32 ≤ b then checkText rest
    else .error (xmlSyntax "illegal character code")

/-- The loop of the decoder over a comment, after `<!--`: it reads up to `-->`, and two
hyphens may not stand elsewhere. `acc` is the comment so far with the hyphens read. -/
def scanComment : Nat → Nat → List Nat → List Nat → Except GoError (List Nat × List Nat)
  | _, _, [], _ => .error (xmlSyntax "unexpected EOF")
  | b0, b1, b :: rest, acc =>
    if b0 = 45 ∧ b1 = 45 then
      if b ≠ 62 then .error (xmlSyntax "invalid sequence \"--\" not allowed in comments")
      -- chop -->
      else .ok ((acc ++ [b]).take ((acc ++ [b]).length - 3), rest)
    else scanComment b1 b rest (acc ++ [b])

/-- The next token of the input and the input after it (`Decoder.rawToken`). At the end
of the input the error is `io.EOF`. -/
def nextToken (input : List Nat) : Except GoError (XMLToken × List Nat) :=
  match input with
  | [] => .error .EOF
  | 60 :: 47 :: rest =>
    -- </: an end element
    match readElementName "</" rest with
    | .error e => .error e
    | .ok (name, rest1) =>
      match skipSpace rest1 with
      | [] => .error (xmlSyntax "unexpected EOF")
      | c :: rest2 =>
        if c = 62 then .ok (.EndElement name, rest2)
        else .error (xmlSyntax ("invalid characters between </" ++ bytesText name ++ " and >"))
  -- <?: a processing instruction
  | 60 :: 63 :: _ => .error xmlOutside
  | 60 :: 33 :: 45 :: 45 :: rest =>
    -- <!--: a comment
    match scanComment 0 0 rest [] with
    | .error e => .error e
    | .ok (data, rest1) => .ok (.Comment data, rest1)
  | 60 :: 33 :: 45 :: [] => .error (xmlSyntax "unexpected EOF")
  | 60 :: 33 :: 45 :: _ => .error (xmlSyntax "invalid sequence <!- not part of <!--")
  | 60 :: 33 :: [] => .error (xmlSyntax "unexpected EOF")
  -- <![CDATA[ or a directive
  | 60 :: 33 :: _ => .error xmlOutside
  | 60 :: rest =>
    -- a start element
    match readElementName "<" rest with
    | .error e => .error e
    | .ok (name, rest1) =>
      match skipSpace rest1 with
      | [] => .error (xmlSyntax "unexpected EOF")
      | c :: rest2 =>
        if c = 62 then .ok (.StartElement name, rest2)
        -- an empty-element tag or an attribute
        else .error xmlOutside
  | input =>
    -- character data
    match scanText 0 0 input [] with
    | .error e => .error e
    | .ok (data, rest) =>
      match checkText data with
      | .error e => .error e
      | .ok _ => .ok (.CharData data, rest)

/-- The function `strings.TrimSpace` over ASCII: without the white space at both ends. -/
def trimSpace (s : List Nat) : List Nat :=
  let isSpace := fun (c : Nat) => decide (c = 9 ∨ c = 10 ∨ c = 11 ∨ c = 12 ∨ c = 13 ∨ c = 32)
  ((s.dropWhile isSpace).reverse.dropWhile isSpace).reverse

/-- The value of a run of decimal digits, or nothing if a byte is not a digit. -/
def parseDigits : List Nat → Nat → Option Nat
  | [], acc => some acc
  | c :: cs, acc => if 48 ≤ c ∧ c ≤ 57 then parseDigits cs (acc * 10 + (c - 48)) else none

/-- The function `strconv.ParseInt(s, 10, 64)`: an optional sign and decimal digits, of
a value that fits 64 bits. The text of its errors leaves out the input. -/
def parseInt (s : List Nat) : Except GoError Int :=
  let digits := match s with
    | 43 :: ds => ds
    | 45 :: ds => ds
    | ds => ds
  let neg := match s with
    | 45 :: _ => true
    | _ => false
  if digits = [] then .error (.errorf "strconv.ParseInt: invalid syntax")
  else
    match parseDigits digits 0 with
    | none => .error (.errorf "strconv.ParseInt: invalid syntax")
    | some n =>
      if neg then
        if n ≤ 2 ^ 63 then .ok (-(n : Int)) else .error (.errorf "strconv.ParseInt: value out of range")
      else
        if n < 2 ^ 63 then .ok (n : Int) else .error (.errorf "strconv.ParseInt: value out of range")

/-- The state of `xml.Unmarshal` into a `TransportHelloMessage`: the elements that are
open, the innermost first, the capabilities and the session id read so far, and the
character data of the element that is being read into a field. -/
structure HelloDecoder where
  stack : List (List Nat) := []
  caps : List (List Nat) := []
  sid : Int := 0
  data : List Nat := []
deriving DecidableEq, Repr

/-- The open elements of a `capability` in `capabilities` in the root: the path of the
field `Capabilities`, tagged `capabilities>capability`. -/
def capabilityPath : List (List Nat) :=
  [toBytes "capability", toBytes "capabilities", toBytes "hello"]

/-- The open elements of a `session-id` in the root: the path of the field `SessionID`. -/
def sessionIDPath : List (List Nat) := [toBytes "session-id", toBytes "hello"]

/-- What the decoder does with one token: it goes on in a new state, or it is done with
the message. -/
inductive HelloStep where
  | more (st : HelloDecoder)
  | done (msg : TransportHelloMessage)

/-- One token in `xml.Unmarshal`. Before the root, character data and comments are passed
over and the first start element must be `hello`. An element on the path of a field
is read into the field: its character data is collected, and stored when the element
ends. Every other element is skipped with what it holds. An end element must close the
innermost open element; the end of the root ends the decoding. -/
def HelloDecoder.step (st : HelloDecoder) (tok : XMLToken) : Except GoError HelloStep :=
  match tok with
  | .StartElement name =>
    match st.stack with
    | [] =>
      if name ≠ toBytes "hello" then
        .error (.errorf ("expected element type <hello> but have <" ++ bytesText name ++ ">"))
      else .ok (.more { st with stack := [name] })
    | _ :: _ =>
      if name :: st.stack = capabilityPath ∨ name :: st.stack = sessionIDPath then
        .ok (.more { st with stack := name :: st.stack, data := [] })
      else .ok (.more { st with stack := name :: st.stack })
  | .EndElement name =>
    match st.stack with
    | [] => .error (xmlSyntax ("unexpected end element </" ++ bytesText name ++ ">"))
    | top :: below =>
      if top ≠ name then
        .error (xmlSyntax ("element <" ++ bytesText top ++ "> closed by </" ++ bytesText name ++ ">"))
      else if st.stack = capabilityPath then
        .ok (.more { st with stack := below, caps := st.caps ++ [st.data] })
      else if st.stack = sessionIDPath then
        if st.data = [] then .ok (.more { st with stack := below, sid := 0 })
        else
          match parseInt (trimSpace st.data) with
          | .error e => .error e
          | .ok n => .ok (.more { st with stack := below, sid := n })
      else if below = [] then
        .ok (.done { Capabilities := st.caps.map bytesText
                     SessionID := st.sid })
      else .ok (.more { st with stack := below })
  | .CharData data =>
    if st.stack = capabilityPath ∨ st.stack = sessionIDPath then
      .ok (.more { st with data := st.data ++ data })
    else .ok (.more st)
  | .Comment _ => .ok (.more st)

/-- The loop of `xml.Unmarshal` over the tokens of the input; every token takes at least
one byte, so a `fuel` above the length of the input is enough. -/
def HelloDecoder.run : Nat → HelloDecoder → List Nat → Except GoError TransportHelloMessage
  | 0, _, _ => .error (.errorf "out of fuel")
  | fuel + 1, st, input =>
    match nextToken input with
    | .error e =>
      -- the end of the input within an element is a syntax error
      if e = GoError.EOF ∧ st.stack ≠ [] then .error (xmlSyntax "unexpected EOF") else .error e
    | .ok (tok, rest) =>
      match st.step tok with
      | .error e => .error e
      | .ok (.done msg) => .ok msg
      | .ok (.more st1) => HelloDecoder.run fuel st1 rest

/-- The function `strconv.Itoa` on a natural number: its decimal digits. `fuel` bounds the
number of digits. -/
def decimalDigits : Nat → Nat → List Nat → List Nat
  | 0, _, acc => acc
  | fuel + 1, n, acc =>
    if n < 10 then (48 + n) :: acc else decimalDigits fuel (n / 10) ((48 + n % 10) :: acc)

/-- The decimal digits of a natural number. -/
def decimal (n : Nat) : List Nat := decimalDigits (n + 1) n []

/-- The login banner of the test suite (`loginStr`). -/
def loginStr : String :=
  "SRX240 (ttyp2)\nPassword:\n--- JUNOS 12.1X45-D15.5 built 2013-09-19 07:42:15 UTC\nbbennett@SRX240>\n"

/-- The test packet of `waitTestStr`: 4095 bytes `x`, a newline, then the input. -/
def waitTestStr (input : List Nat) : List Nat :=
  (List.replicate 4096 120).set 4095 10 ++ input

/-- The reads of Go's `bytes.Reader` over `s` into a buffer of 4096 bytes: every read
fills the buffer as far as data remains. `fuel` bounds the number of reads. -/
def bytesReader.chunks : Nat → List Nat → List (List Nat)
  | 0, _ => []
  | fuel + 1, s => if s = [] then [] else s.take 4096 :: bytesReader.chunks fuel (s.drop 4096)

/-- The read results of `bytes.NewReader(s)`; a read takes at least one byte, so
`s.length` reads are enough. -/
def bytesReader (s : List Nat) : List ReadResult :=
  (bytesReader.chunks s.length s).map ReadResult.ok

/-- The transport of the test suite (`newTestTransport`): it reads from a `bytes.Reader`
over the input and writes to a buffer, and no write fails. -/
def newTestTransport (input : List Nat) : transportBase :=
  { rwc := { reads := bytesReader input } }

/-- A transport double: its state is the list of messages still to be received;
`ReceiveHello` answers `hello`, `SendHello` returns `sendErr`, `Send` succeeds and
`Recieve` takes the next message, or fails at the end. -/
def scriptedTransport (hello : Except GoError TransportHelloMessage)
    (sendErr : Option GoError) : Transport (List (List Nat)) where
  Send := fun _ st => (none, st)
  Recieve := fun st =>
    match st with
    | [] => (.error .EOF, [])
    | r :: rest => (.ok r, rest)
  Close := fun st => (none, st)
  SendHello := fun _ st => (sendErr, st)
  ReceiveHello := fun st => (hello, st)

/-- The hello of the device in the test suite (`deviceHelloStr`), decoded. -/
def deviceHello : TransportHelloMessage :=
  { Capabilities :=
      [ "urn:ietf:params:xml:ns:netconf:base:1.0"
      , "urn:ietf:params:xml:ns:netconf:capability:candidate:1.0"
      , "urn:ietf:params:xml:ns:netconf:capability:confirmed-commit:1.0"
      , "urn:ietf:params:xml:ns:netconf:capability:validate:1.0"
      , "urn:ietf:params:xml:ns:netconf:capability:url:1.0?protocol=http,ftp,file"
      , "http://xml.juniper.net/netconf/junos/1.0"
      , "http://xml.juniper.net/dmi/system/1.0" ]
    SessionID := 19313 }

/-- A decoder double: it fills the reply with the given errors, whatever the bytes. -/
def decodeWithErrors (errors : List RPCError) :
    List Nat → RPCReply → Except GoError RPCReply :=
  fun _ reply => .ok { reply with Errors := errors }

/-- An `rpc-error` with the given severity and message. -/
def rpcErrorOf (severity message : String) : RPCError :=
  { ErrType := "protocol", Tag := "operation-failed", Severity := severity, Path := ""
    Message := message, Info := "" }

/-- A decoder double for one reply: it decodes `doc` to a reply with the payload `data` and
fails on other bytes. -/
def decodeReplyOf (doc data : List Nat) : List Nat → RPCReply → Except GoError RPCReply :=
  fun res reply =>
    if res = doc then .ok { reply with Data := data } else .error (.errorf "XML syntax error")

/-! ## Vocabulary of the statements about identifiers -/

/-- The lower-case hexadecimal digit of a value below 16. -/
def hexChar (n : Nat) : Char := "0123456789abcdef".data.getD n '?'

/-- The position in the identifier of its `j`-th hexadecimal digit, `j < 32`: the groups
have 8, 4, 4, 4 and 12 digits and one separator stands between two groups. -/
def uuidPos (j : Nat) : Nat :=
  j + (if j < 8 then 0 else if j < 12 then 1 else if j < 16 then 2 else if j < 20 then 3
    else 4)

/-- The `j`-th nibble of the bytes `b`, in byte order, the high nibble of a byte first. -/
def nibble (b : List Nat) (j : Nat) : Nat :=
  if j % 2 = 0 then b.getD (j / 2) 0 / 16 else b.getD (j / 2) 0 % 16

/-! ## Vocabulary of the statements about framing -/

/-- The pattern `sep` occurs in `s` at position `k` and at no earlier position. -/
def FirstOccurrence (sep s : List Nat) (k : Nat) : Prop :=
  sep <+: s.drop k ∧ ∀ j < k, ¬ sep <+: s.drop j

/-- The read buffer after the reads `pre`, each with a nil error, starting from `buf`. -/
def bufAfter (buf : List Nat) (pre : List (List Nat)) : List Nat := pre.foldl fillBuf buf

/-! ## Vocabulary of the statements about hello documents -/

/-- A byte of plain character data: a tab, a newline or a printable ASCII character,
other than `<` and `&`. -/
def plainByte (b : Nat) : Bool :=
  (b = 9 || b = 10 || (32 ≤ b && b < 128)) && b != 60 && b != 38

/-- No `]]>` stands in the bytes, also with `b0` and `b1` in front of them. -/
def noCDEnd : Nat → Nat → List Nat → Bool
  | _, _, [] => true
  | b0, b1, b :: rest => !(b0 = 93 && b1 = 93 && b = 62) && noCDEnd b1 b rest

/-- Plain character data: plain bytes that do not hold `]]>`. -/
def plainText (t : List Nat) : Bool := t.all plainByte && noCDEnd 0 0 t

/-- The body of a comment: no two hyphens in a row, with `b1` in front, and no hyphen at
the end. -/
def commentBody : Nat → List Nat → Bool
  | b1, [] => b1 != 45
  | b1, b :: rest => !(b1 = 45 && b = 45) && commentBody b rest

/-- What may stand between two tags of a hello document: plain character data (white
space as a rule), then any number of comments, each followed by plain character data. -/
structure Gap where
  text : List Nat := []
  more : List (List Nat × List Nat) := []
deriving DecidableEq, Repr

/-- The bytes of what follows the first character data of a gap. -/
def renderComments (more : List (List Nat × List Nat)) : List Nat :=
  more.flatMap (fun ct => toBytes "<!--" ++ ct.1 ++ toBytes "-->" ++ ct.2)

/-- The bytes of a gap. -/
def Gap.render (g : Gap) : List Nat := g.text ++ renderComments g.more

/-- The character data of the gap are plain and its comments are comments. -/
def Gap.wellFormed (g : Gap) : Bool :=
  plainText g.text && g.more.all (fun ct => commentBody 0 ct.1 && plainText ct.2)

/-- A hello document: the element `hello` with the element `capabilities`, which holds
the `capability` elements, each with its capability string as character data, and then
the element `session-id` with the session id in decimal digits. A gap may stand before
every tag but those of `capability` and `session-id` that close their own content. -/
structure HelloDocument where
  lead : Gap := {}
  afterHello : Gap := {}
  caps : List (Gap × Capability) := []
  afterCaps : Gap := {}
  beforeSessionID : Gap := {}
  sessionID : Nat := 0
  beforeEnd : Gap := {}
deriving DecidableEq, Repr

/-- The bytes of the `capability` elements with the gaps before them. -/
def renderCapabilities (caps : List (Gap × Capability)) : List Nat :=
  caps.flatMap (fun gc =>
    gc.1.render ++ toBytes "<capability>" ++ toBytes gc.2 ++ toBytes "</capability>")

/-- The bytes of a hello document. -/
def HelloDocument.render (d : HelloDocument) : List Nat :=
  d.lead.render ++ toBytes "<hello>"
    ++ d.afterHello.render ++ toBytes "<capabilities>"
    ++ renderCapabilities d.caps
    ++ d.afterCaps.render ++ toBytes "</capabilities>"
    ++ d.beforeSessionID.render ++ toBytes "<session-id>" ++ decimal d.sessionID
    ++ toBytes "</session-id>"
    ++ d.beforeEnd.render ++ toBytes "</hello>"

/-- The gaps of the document are well formed, the capability strings are plain character
data over ASCII, and the session id fits the type `int`. -/
def HelloDocument.wellFormed (d : HelloDocument) : Bool :=
  d.lead.wellFormed && d.afterHello.wellFormed
    && d.caps.all (fun gc =>
        gc.1.wellFormed && gc.2.data.all (fun ch => ch.toNat < 128) && plainText (toBytes gc.2))
    && d.afterCaps.wellFormed && d.beforeSessionID.wellFormed
    && decide (d.sessionID < 2 ^ 63) && d.beforeEnd.wellFormed

/-- The hello that a hello document carries. -/
def HelloDocument.hello (d : HelloDocument) : TransportHelloMessage :=
  { Capabilities := d.caps.map (fun gc => gc.2), SessionID := (d.sessionID : Int) }

/-- The decoder in state `st` reads the message `h` from the input, within as many
tokens as the input has bytes. -/
def Decodes (st : HelloDecoder) (input : List Nat) (h : TransportHelloMessage) : Prop :=
  ∃ n, n ≤ input.length ∧ HelloDecoder.run n st input = .ok h

/-- The capability strings of the decoder for the bytes of the capabilities read. -/
def capabilityStrings (caps : List (List Nat)) : List Capability :=
  caps.map bytesText

/-! ## Lemmas: the byte search and the read loop -/

/-- The search returns `k` exactly if `k` is the first position where `sep` occurs. -/
theorem indexOfSub_some_iff (sep : List Nat) (s : List Nat) (k : Nat) :
    indexOfSub sep s = some k ↔ FirstOccurrence sep s k := by
  induction s generalizing k with
  | nil =>
    unfold indexOfSub FirstOccurrence
    by_cases h : sep <+: []
    · have h1 : sep.isPrefixOf [] = true := List.isPrefixOf_iff_prefix.mpr h
      simp only [h1, if_true, List.drop_nil]
      constructor
      · intro hk
        have : k = 0 := by simpa using hk.symm
        subst this
        exact ⟨h, fun j hj => absurd hj (Nat.not_lt_zero j)⟩
      · rintro ⟨_, h2⟩
        cases k with
        | zero => rfl
        | succ k => exact absurd h (h2 0 (Nat.succ_pos k))
    · have h1 : ¬ sep.isPrefixOf [] = true := fun h1 => h (List.isPrefixOf_iff_prefix.mp h1)
      simp only [h1, List.drop_nil]
      constructor
      · intro hk; simp at hk
      · rintro ⟨h2, _⟩; exact absurd h2 h
  | cons x xs ih =>
    unfold indexOfSub FirstOccurrence
    by_cases h : sep <+: x :: xs
    · have h1 : sep.isPrefixOf (x :: xs) = true := List.isPrefixOf_iff_prefix.mpr h
      simp only [h1, if_true]
      constructor
      · intro hk
        have : k = 0 := by simpa using hk.symm
        subst this
        exact ⟨h, fun j hj => absurd hj (Nat.not_lt_zero j)⟩
      · rintro ⟨_, h2⟩
        cases k with
        | zero => rfl
        | succ k => exact absurd h (h2 0 (Nat.succ_pos k))
    · have h1 : ¬ sep.isPrefixOf (x :: xs) = true :=
        fun h1 => h (List.isPrefixOf_iff_prefix.mp h1)
      simp only [h1]
      cases k with
      | zero =>
        constructor
        · intro hk
          cases hx : indexOfSub sep xs <;> simp [hx] at hk
        · rintro ⟨h2, _⟩; exact absurd h2 h
      | succ k =>
        have ih1 := ih k
        unfold FirstOccurrence at ih1
        constructor
        · intro hk
          have hk1 : indexOfSub sep xs = some k := by
            cases hx : indexOfSub sep xs with
            | none => simp [hx] at hk
            | some i => simp [hx] at hk; simp [hk]
          obtain ⟨h2, h3⟩ := ih1.mp hk1
          refine ⟨by simpa using h2, ?_⟩
          intro j hj
          cases j with
          | zero => simpa using h
          | succ j => simpa using h3 j (by omega)
        · rintro ⟨h2, h3⟩
          have hk1 : indexOfSub sep xs = some k := by
            apply ih1.mpr
            refine ⟨by simpa using h2, ?_⟩
            intro j hj
            simpa using h3 (j + 1) (by omega)
          simp [hk1]

/-- The search finds nothing exactly if `sep` occurs nowhere. -/
theorem indexOfSub_none_iff (sep : List Nat) (s : List Nat) :
    indexOfSub sep s = none ↔ ∀ k, ¬ sep <+: s.drop k := by
  constructor
  · intro h k hk
    -- there is a least occurrence
    have hex : ∃ j, sep <+: s.drop j := ⟨k, hk⟩
    classical
    have hfirst : FirstOccurrence sep s (Nat.find hex) :=
      ⟨Nat.find_spec hex, fun j hj => Nat.find_min hex hj⟩
    rw [(indexOfSub_some_iff sep s _).mpr hfirst] at h
    cases h
  · intro h
    cases hx : indexOfSub sep s with
    | none => rfl
    | some k => exact absurd ((indexOfSub_some_iff sep s k).mp hx).1 (h k)

/-- The index that `bytes.Index` returns is the first occurrence. -/
theorem bytesIndex_of_first {sep s : List Nat} {k : Nat} (h : FirstOccurrence sep s k) :
    bytesIndex s sep = (k : Int) := by
  unfold bytesIndex
  rw [(indexOfSub_some_iff sep s k).mpr h]

/-- The result `-1` of `bytes.Index` means that `sep` occurs nowhere. -/
theorem bytesIndex_neg_iff (sep s : List Nat) :
    bytesIndex s sep = -1 ↔ ∀ k, ¬ sep <+: s.drop k := by
  rw [← indexOfSub_none_iff]
  unfold bytesIndex
  cases hx : indexOfSub sep s with
  | none => simp
  | some k => simp

/-- The buffer after a first read and further reads. -/
theorem bufAfter_cons (buf c : List Nat) (cs : List (List Nat)) :
    bufAfter buf (c :: cs) = bufAfter (fillBuf buf c) cs := rfl

/-- The first `n` bytes of the buffer after a read are the bytes read. -/
theorem take_fillBuf (buf d : List Nat) : (fillBuf buf d).take d.length = d := by
  unfold fillBuf
  exact List.take_left d _

/-- One turn of the loop on a read without error whose buffer does not hold the pattern. -/
theorem loop_step_miss (b : List Nat) (c : List Nat) (rest : List ReadResult)
    (buf out : List Nat) (hc : c ≠ []) (hmiss : bytesIndex (fillBuf buf c) b = -1) :
    WaitForFunc.loop (fun x => (bytesIndex x b, none)) (ReadResult.ok c :: rest) buf out
      = WaitForFunc.loop (fun x => (bytesIndex x b, none)) rest (fillBuf buf c) (out ++ c) := by
  have hlen : c.length ≠ 0 := fun h => hc (List.length_eq_zero.mp h)
  rw [WaitForFunc.loop]
  simp only [ReadResult.ok, hlen, if_false, hmiss, take_fillBuf]
  simp

/-- One turn of the loop on a read without error whose buffer holds the pattern. -/
theorem loop_step_hit (b : List Nat) (c : List Nat) (rest : List ReadResult)
    (buf out : List Nat) (q : Nat) (hc : c ≠ [])
    (hhit : bytesIndex (fillBuf buf c) b = (q : Int)) :
    WaitForFunc.loop (fun x => (bytesIndex x b, none)) (ReadResult.ok c :: rest) buf out
      = (.ok (out ++ (fillBuf buf c).take q), rest) := by
  have hlen : c.length ≠ 0 := fun h => hc (List.length_eq_zero.mp h)
  rw [WaitForFunc.loop]
  simp only [ReadResult.ok, hlen, if_false, hhit]
  have : (q : Int) > -1 := by omega
  simp [this]

/-- The loop over reads none of which leaves the pattern in the buffer: all their bytes go to the output. -/
theorem loop_quiet (b : List Nat) (pre : List (List Nat)) (rest : List ReadResult)
    (buf out : List Nat) (hne : ∀ c ∈ pre, c ≠ [])
    (hq : ∀ i < pre.length, bytesIndex (bufAfter buf (pre.take (i + 1))) b = -1) :
    WaitForFunc.loop (fun x => (bytesIndex x b, none)) (pre.map ReadResult.ok ++ rest) buf out
      = WaitForFunc.loop (fun x => (bytesIndex x b, none)) rest (bufAfter buf pre)
          (out ++ pre.flatten) := by
  induction pre generalizing buf out with
  | nil => simp [bufAfter]
  | cons c cs ih =>
    have h0 : bytesIndex (fillBuf buf c) b = -1 := by
      have := hq 0 (by simp)
      simpa [bufAfter] using this
    have hcs : ∀ i < cs.length, bytesIndex (bufAfter (fillBuf buf c) (cs.take (i + 1))) b = -1 := by
      intro i hi
      have := hq (i + 1) (by simp; omega)
      simpa [bufAfter] using this
    rw [List.map_cons, List.cons_append,
      loop_step_miss b c _ buf out (hne c (List.mem_cons_self c cs)) h0,
      ih (fillBuf buf c) (out ++ c) (fun d hd => hne d (List.mem_cons_of_mem c hd)) hcs,
      bufAfter_cons]
    simp

/-- An occurrence that fits into the fresh bytes of the buffer is seen there, and no
position before it matches, whatever the old bytes behind the fresh ones are. -/
theorem first_in_buffer (b p c tail stale : List Nat) (k : Nat)
    (hfirst : FirstOccurrence b (p ++ c ++ tail) k)
    (hlo : p.length ≤ k) (hhi : k + b.length ≤ p.length + c.length) :
    FirstOccurrence b (c ++ stale) (k - p.length) := by
  obtain ⟨hocc, hmin⟩ := hfirst
  have key : ∀ j, j + b.length ≤ c.length →
      (b <+: (p ++ c ++ tail).drop (p.length + j) ↔ b <+: (c ++ stale).drop j) := by
    intro j hj
    have e1 : (p ++ c ++ tail).drop (p.length + j) = c.drop j ++ tail := by
      rw [List.append_assoc, List.drop_append_eq_append_drop]
      have : List.drop (p.length + j) p = [] := List.drop_eq_nil_of_le (by omega)
      rw [this, List.nil_append, Nat.add_sub_cancel_left, List.drop_append_eq_append_drop]
      have : j - c.length = 0 := by omega
      rw [this, List.drop_zero]
    have e2 : (c ++ stale).drop j = c.drop j ++ stale := by
      rw [List.drop_append_eq_append_drop]
      have : j - c.length = 0 := by omega
      rw [this, List.drop_zero]
    have hl : b.length ≤ (c.drop j).length := by rw [List.length_drop]; omega
    rw [e1, e2]
    constructor
    · intro h
      exact (List.prefix_of_prefix_length_le h (List.prefix_append _ _) hl).trans
        (List.prefix_append _ _)
    · intro h
      exact (List.prefix_of_prefix_length_le h (List.prefix_append _ _) hl).trans
        (List.prefix_append _ _)
  constructor
  · have := (key (k - p.length) (by omega)).mp (by
      have : p.length + (k - p.length) = k := by omega
      rw [this]; exact hocc)
    exact this
  · intro j hj hpre
    have hj1 : j + b.length ≤ c.length := by omega
    exact hmin (p.length + j) (by omega) ((key j hj1).mpr hpre)

/-! ## Lemmas: the session and the codec -/

/-- The loop over the errors returns `e` exactly if `e` is the first error to act upon. -/
theorem firstError_eq_some (w : Bool) (E : List RPCError) (e : RPCError) :
    Exec.firstError w E = some e ↔
      ∃ pre post, E = pre ++ e :: post
        ∧ (∀ x ∈ pre, ¬ (x.Severity = "error" ∨ w = true))
        ∧ (e.Severity = "error" ∨ w = true) := by
  induction E with
  | nil => simp [Exec.firstError]
  | cons x xs ih =>
    unfold Exec.firstError
    by_cases hx : x.Severity = "error" ∨ w = true
    · rw [if_pos hx]
      constructor
      · intro h
        have hxe : x = e := Option.some.inj h
        subst hxe
        exact ⟨[], xs, rfl, by simp, hx⟩
      · rintro ⟨pre, post, heq, hpre, _⟩
        cases pre with
        | nil =>
          simp at heq
          rw [heq.1]
        | cons y ys =>
          simp at heq
          exact absurd (heq.1 ▸ hx) (hpre y (by simp))
    · rw [if_neg hx, ih]
      constructor
      · rintro ⟨pre, post, heq, hpre, he⟩
        refine ⟨x :: pre, post, by simp [heq], ?_, he⟩
        intro y hy
        rcases List.mem_cons.mp hy with rfl | hy
        · exact hx
        · exact hpre y hy
      · rintro ⟨pre, post, heq, hpre, he⟩
        cases pre with
        | nil =>
          simp at heq
          exact absurd (heq.1 ▸ he) hx
        | cons y ys =>
          simp at heq
          exact ⟨ys, post, heq.2, fun z hz => hpre z (by simp [hz]), he⟩

/-- The loop over the errors returns an error exactly if there is one to act upon. -/
theorem firstError_isSome (w : Bool) (E : List RPCError) :
    (Exec.firstError w E).isSome ↔
      (∃ e ∈ E, e.Severity = "error") ∨ (w = true ∧ E ≠ []) := by
  induction E with
  | nil => simp [Exec.firstError]
  | cons x xs ih =>
    unfold Exec.firstError
    by_cases hx : x.Severity = "error" ∨ w = true
    · rw [if_pos hx]
      rcases hx with hx | hx
      · simp [hx]
      · simp [hx]
    · rw [if_neg hx, ih]
      have h1 : ¬ x.Severity = "error" := fun h => hx (Or.inl h)
      have h2 : ¬ w = true := fun h => hx (Or.inr h)
      simp [h1, h2]

/-- The result of `Exec` once the request is sent and the reply received and decoded. -/
theorem Exec_decoded {σ : Type} (s : Session σ)
    (xmlUnmarshal : List Nat → RPCReply → Except GoError RPCReply)
    (rnd : List Nat) (methods : List RPCMethod) (st st1 st2 : σ) (req : String)
    (res : List Nat) (reply : RPCReply)
    (hreq : xmlMarshalRPCMessage (NewRPCMessage rnd methods) = .ok req)
    (hsend : s.Transport.Send (toBytes req) st = (none, st1))
    (hrecv : s.Transport.Recieve st1 = (.ok res, st2))
    (hdec : xmlUnmarshal res { RawReply := res } = .ok reply) :
    s.Exec xmlUnmarshal rnd methods st
      = ((some reply, (Exec.firstError s.ErrOnWarnings reply.Errors).map GoError.rpc), st2) := by
  unfold Session.Exec
  simp only [hreq, hsend, hrecv, hdec]
  cases Exec.firstError s.ErrOnWarnings reply.Errors <;> rfl

/-- The first digit of a byte under `%x` is its high nibble. -/
theorem hex_hi : ∀ x < 256, ldigits.getD (x >>> 4) '?' = hexChar (x / 16) := by decide!

/-- The second digit of a byte under `%x` is its low nibble. -/
theorem hex_lo : ∀ x < 256, ldigits.getD (x &&& 0xF) '?' = hexChar (x % 16) := by decide!

/-- The high nibble of byte 6 after the masks is 4. -/
theorem version_hi : ∀ x < 256, ldigits.getD (((x &&& 0x0f) ||| 0x40) >>> 4) '?' = '4' := by
  decide!

/-- The low nibble of byte 6 is kept by the masks. -/
theorem version_lo :
    ∀ x < 256, ldigits.getD (((x &&& 0x0f) ||| 0x40) &&& 0xF) '?' = hexChar (x % 16) := by
  decide!

/-- The high nibble of byte 8 after the masks is 8 plus its two low bits. -/
theorem variant_hi :
    ∀ x < 256, ldigits.getD (((x &&& 0x3f) ||| 0x80) >>> 4) '?' = hexChar (8 + x / 16 % 4) := by
  decide!

/-- The low nibble of byte 8 is kept by the masks. -/
theorem variant_lo :
    ∀ x < 256, ldigits.getD (((x &&& 0x3f) ||| 0x80) &&& 0xF) '?' = hexChar (x % 16) := by
  decide!

/-- A list of length 16 is a list of 16 elements. -/
theorem list16 (b : List Nat) (hlen : b.length = 16) :
    ∃ b0 b1 b2 b3 b4 b5 b6 b7 b8 b9 b10 b11 b12 b13 b14 b15,
      b = [b0, b1, b2, b3, b4, b5, b6, b7, b8, b9, b10, b11, b12, b13, b14, b15] := by
  rcases b with _ | ⟨b0, _ | ⟨b1, _ | ⟨b2, _ | ⟨b3, _ | ⟨b4, _ | ⟨b5, _ | ⟨b6, _ | ⟨b7,
    _ | ⟨b8, _ | ⟨b9, _ | ⟨b10, _ | ⟨b11, _ | ⟨b12, _ | ⟨b13, _ | ⟨b14, _ | ⟨b15,
    _ | ⟨b16, r⟩⟩⟩⟩⟩⟩⟩⟩⟩⟩⟩⟩⟩⟩⟩⟩⟩ <;> simp at hlen
  exact ⟨b0, b1, b2, b3, b4, b5, b6, b7, b8, b9, b10, b11, b12, b13, b14, b15, rfl⟩

/-- The characters of the identifier of a draw of 16 bytes. -/
theorem rpcUUID_data (b0 b1 b2 b3 b4 b5 b6 b7 b8 b9 b10 b11 b12 b13 b14 b15 : Nat)
    (h : ∀ x ∈ [b0, b1, b2, b3, b4, b5, b6, b7, b8, b9, b10, b11, b12, b13, b14, b15], x < 256) :
    (rpcUUID [b0, b1, b2, b3, b4, b5, b6, b7, b8, b9, b10, b11, b12, b13, b14, b15]).data
      = [hexChar (b0 / 16), hexChar (b0 % 16), hexChar (b1 / 16), hexChar (b1 % 16),
         hexChar (b2 / 16), hexChar (b2 % 16), hexChar (b3 / 16), hexChar (b3 % 16), '-',
         hexChar (b4 / 16), hexChar (b4 % 16), hexChar (b5 / 16), hexChar (b5 % 16), '-',
         '4', hexChar (b6 % 16), hexChar (b7 / 16), hexChar (b7 % 16), '-',
         hexChar (8 + b8 / 16 % 4), hexChar (b8 % 16), hexChar (b9 / 16), hexChar (b9 % 16), '-',
         hexChar (b10 / 16), hexChar (b10 % 16), hexChar (b11 / 16), hexChar (b11 % 16),
         hexChar (b12 / 16), hexChar (b12 % 16), hexChar (b13 / 16), hexChar (b13 % 16),
         hexChar (b14 / 16), hexChar (b14 % 16), hexChar (b15 / 16), hexChar (b15 % 16)] := by
  simp only [List.mem_cons, List.mem_singleton, List.not_mem_nil, or_false, forall_eq_or_imp,
    forall_eq] at h
  obtain ⟨h0, h1, h2, h3, h4, h5, h6, h7, h8, h9, h10, h11, h12, h13, h14, h15⟩ := h
  have e : (rpcUUID [b0, b1, b2, b3, b4, b5, b6, b7, b8, b9, b10, b11, b12, b13, b14, b15]).data
      = [ldigits.getD ((b0) >>> 4) '?', ldigits.getD ((b0) &&& 0xF) '?',
        ldigits.getD ((b1) >>> 4) '?', ldigits.getD ((b1) &&& 0xF) '?',
        ldigits.getD ((b2) >>> 4) '?', ldigits.getD ((b2) &&& 0xF) '?',
        ldigits.getD ((b3) >>> 4) '?', ldigits.getD ((b3) &&& 0xF) '?',
        '-',
        ldigits.getD ((b4) >>> 4) '?', ldigits.getD ((b4) &&& 0xF) '?',
        ldigits.getD ((b5) >>> 4) '?', ldigits.getD ((b5) &&& 0xF) '?',
        '-',
        ldigits.getD (((b6 &&& 0x0f) ||| 0x40) >>> 4) '?', ldigits.getD (((b6 &&& 0x0f) ||| 0x40) &&& 0xF) '?',
        ldigits.getD ((b7) >>> 4) '?', ldigits.getD ((b7) &&& 0xF) '?',
        '-',
        ldigits.getD (((b8 &&& 0x3f) ||| 0x80) >>> 4) '?', ldigits.getD (((b8 &&& 0x3f) ||| 0x80) &&& 0xF) '?',
        ldigits.getD ((b9) >>> 4) '?', ldigits.getD ((b9) &&& 0xF) '?',
        '-',
        ldigits.getD ((b10) >>> 4) '?', ldigits.getD ((b10) &&& 0xF) '?',
        ldigits.getD ((b11) >>> 4) '?', ldigits.getD ((b11) &&& 0xF) '?',
        ldigits.getD ((b12) >>> 4) '?', ldigits.getD ((b12) &&& 0xF) '?',
        ldigits.getD ((b13) >>> 4) '?', ldigits.getD ((b13) &&& 0xF) '?',
        ldigits.getD ((b14) >>> 4) '?', ldigits.getD ((b14) &&& 0xF) '?',
        ldigits.getD ((b15) >>> 4) '?', ldigits.getD ((b15) &&& 0xF) '?'] := rfl
  rw [e, hex_hi _ h0, hex_lo _ h0, hex_hi _ h1, hex_lo _ h1, hex_hi _ h2, hex_lo _ h2,
    hex_hi _ h3, hex_lo _ h3, hex_hi _ h4, hex_lo _ h4, hex_hi _ h5, hex_lo _ h5,
    version_hi _ h6, version_lo _ h6, hex_hi _ h7, hex_lo _ h7,
    variant_hi _ h8, variant_lo _ h8, hex_hi _ h9, hex_lo _ h9,
    hex_hi _ h10, hex_lo _ h10, hex_hi _ h11, hex_lo _ h11, hex_hi _ h12, hex_lo _ h12,
    hex_hi _ h13, hex_lo _ h13, hex_hi _ h14, hex_lo _ h14, hex_hi _ h15, hex_lo _ h15]

/-- No digit of `%x` is changed by the escaping of the XML encoder. -/
theorem xmlEscapeChar_digit (i : Nat) :
    xmlEscapeChar (ldigits.getD i '?') = [ldigits.getD i '?'] := by
  by_cases h : i < 17
  · revert i
    decide
  · rw [List.getD_eq_default _ _ (by simpa [ldigits] using h)]
    decide

/-- No character of a `%x` rendering is changed by the escaping. -/
theorem xmlEscapeChar_fmtX (bs : List Nat) : ∀ c ∈ fmtX bs, xmlEscapeChar c = [c] := by
  intro c hc
  unfold fmtX at hc
  rw [List.mem_flatMap] at hc
  obtain ⟨x, _, hx⟩ := hc
  simp only [List.mem_cons, List.mem_singleton, List.not_mem_nil, or_false] at hx
  rcases hx with rfl | rfl <;> exact xmlEscapeChar_digit _

/-- No character of an identifier is changed by the escaping. -/
theorem xmlEscapeChar_rpcUUID (rnd : List Nat) :
    ∀ c ∈ (rpcUUID rnd).data, xmlEscapeChar c = [c] := by
  have hdash : xmlEscapeChar '-' = ['-'] := by decide
  unfold rpcUUID
  simp only [List.forall_mem_append, List.forall_mem_cons]
  repeat' apply And.intro
  all_goals first
    | exact hdash
    | exact xmlEscapeChar_fmtX _

/-- Mapping every character to itself alone and concatenating gives the list back. -/
theorem flatMap_singleton_of (f : Char → List Char) (l : List Char)
    (h : ∀ c ∈ l, f c = [c]) : l.flatMap f = l := by
  induction l with
  | nil => rfl
  | cons x xs ih =>
    rw [List.flatMap_cons, h x (List.mem_cons_self x xs),
      ih (fun c hc => h c (List.mem_cons_of_mem x hc))]
    rfl

/-- An identifier is its own escaped form. -/
theorem xmlEscapeString_rpcUUID (rnd : List Nat) :
    xmlEscapeString (rpcUUID rnd) = rpcUUID rnd := by
  unfold xmlEscapeString
  rw [flatMap_singleton_of _ _ (xmlEscapeChar_rpcUUID rnd)]

/-- The buffer that `MarshalXML` fills holds the bodies of the methods in order. -/
theorem foldl_append_eq (ms : List RPCMethod) (acc : String) :
    ms.foldl (fun a method => a ++ method.MarshalRPCMethod) acc
      = acc ++ (ms.map RPCMethod.MarshalRPCMethod).foldr (· ++ ·) "" := by
  induction ms generalizing acc with
  | nil => simp
  | cons m ms ih =>
    rw [List.foldl_cons, ih, List.map_cons, List.foldr_cons, String.append_assoc]

/-- The bytes of `xml.Marshal` for a new message. -/
theorem xmlMarshalRPCMessage_eq (rnd : List Nat) (methods : List RPCMethod) :
    xmlMarshalRPCMessage (NewRPCMessage rnd methods)
      = .ok ("<rpc message-id=\"" ++ rpcUUID rnd ++ "\">"
          ++ (methods.map RPCMethod.MarshalRPCMethod).foldr (· ++ ·) "" ++ "</rpc>") := by
  unfold xmlMarshalRPCMessage RPCMessage.MarshalXML NewRPCMessage EncodeElement
  simp only [xmlEscapeString_rpcUUID, foldl_append_eq]
  congr 1
  apply String.ext
  simp [String.data_append]

/-- The first call of `Exec` on its transport is `Send` with the encoded request. -/
theorem Exec_logged_head {σ : Type} (t : Transport σ) (id : Int)
    (caps : List Capability) (w : Bool)
    (xmlUnmarshal : List Nat → RPCReply → Except GoError RPCReply)
    (rnd : List Nat) (methods : List RPCMethod) (st : σ) (req : String)
    (hreq : xmlMarshalRPCMessage (NewRPCMessage rnd methods) = .ok req) :
    (({ ID := id, ServerCapabilities := caps, Transport := t.logged, ErrOnWarnings := w } :
        Session (σ × List Call)).Exec xmlUnmarshal rnd methods (st, [])).2.2.head?
      = some (Call.Send (toBytes req)) := by
  unfold Session.Exec
  rw [hreq]
  simp only [Transport.logged]
  generalize t.Send (toBytes req) st = r1
  rcases r1 with ⟨_ | e, st1⟩
  · simp only
    generalize t.Recieve st1 = r2
    rcases r2 with ⟨e | res, st2⟩
    · simp
    · simp only
      cases xmlUnmarshal res { RawReply := res } with
      | error e => simp
      | ok reply => cases h : Exec.firstError w reply.Errors <;> simp [h]
  · simp

/-! ## Framing: `Recieve` and the wait functions -/

/-- C1 (as amended). For every delivery of a stream as consecutive non-empty reads of at
most 4096 bytes, none with a read error, and every non-empty pattern `m`: if the first
occurrence of `m` in the stream lies wholly within the bytes of one read, and after none
of the earlier reads the read buffer contains `m`, then `WaitForBytes(m)` and
`WaitForString(m)`, and `Recieve` when `m` is the delimiter, return without error exactly
the bytes of the stream that precede that occurrence. -/
theorem WaitForBytes_within_one_read (m : List Nat) (pre : List (List Nat)) (c : List Nat)
    (post : List (List Nat)) (k : Nat)
    (hm : m ≠ [])
    (hsize : ∀ d ∈ pre ++ c :: post, d ≠ [] ∧ d.length ≤ 4096)
    (hfirst : FirstOccurrence m (pre ++ c :: post).flatten k)
    (hlo : pre.flatten.length ≤ k)
    (hhi : k + m.length ≤ pre.flatten.length + c.length)
    (hquiet : ∀ i < pre.length, bytesIndex (bufAfter newBuf (pre.take (i + 1))) m = -1) :
    ((readerOf ((pre ++ c :: post).map ReadResult.ok)).WaitForBytes m).1
        = .ok ((pre ++ c :: post).flatten.take k)
      ∧ ((readerOf ((pre ++ c :: post).map ReadResult.ok)).WaitForString m).1
        = .ok ((pre ++ c :: post).flatten.take k)
      ∧ (m = toBytes TransportMessageSeparator →
          ((readerOf ((pre ++ c :: post).map ReadResult.ok)).Recieve).1
            = .ok ((pre ++ c :: post).flatten.take k)) := by
  have hS : (pre ++ c :: post).flatten = pre.flatten ++ c ++ post.flatten := by
    simp [List.flatten_append]
  have hpre : ∀ d ∈ pre, d ≠ [] := fun d hd => (hsize d (by simp [hd])).1
  have hc : c ≠ [] := (hsize c (by simp)).1
  have hb := first_in_buffer m pre.flatten c post.flatten
    ((bufAfter newBuf pre).drop c.length) k (hS ▸ hfirst) hlo hhi
  have hmain : ((readerOf ((pre ++ c :: post).map ReadResult.ok)).WaitForBytes m).1
      = .ok ((pre ++ c :: post).flatten.take k) := by
    unfold transportBase.WaitForBytes transportBase.WaitForFunc readerOf
    simp only [List.map_append, List.map_cons]
    rw [loop_quiet m pre _ newBuf [] hpre hquiet,
      loop_step_hit m c _ _ _ (k - pre.flatten.length) hc (bytesIndex_of_first hb)]
    simp only [List.nil_append]
    congr 1
    rw [hS, List.append_assoc, List.take_append_eq_append_take,
      List.take_of_length_le hlo, List.take_append_eq_append_take]
    unfold fillBuf
    rw [List.take_append_eq_append_take]
    have hmlen : 0 < m.length := List.length_pos.mpr hm
    have h0 : k - pre.flatten.length - c.length = 0 := by omega
    rw [h0, List.take_zero, List.take_zero]
  refine ⟨hmain, ?_, ?_⟩
  · unfold transportBase.WaitForString
    generalize hr : (readerOf ((pre ++ c :: post).map ReadResult.ok)).WaitForBytes m = r at hmain
    rcases r with ⟨_ | out, t1⟩
    · simp at hmain
    · simpa using hmain
  · intro hmd
    unfold transportBase.Recieve
    rw [← hmd]
    exact hmain

/-- The test of the source, `TestWaitForString`: 4096 filler bytes, then the login banner,
with the pattern `Password:`. -/
theorem WaitForBytes_within_one_read_witness :
    ((readerOf ([(waitTestStr []), toBytes loginStr].map ReadResult.ok)).WaitForString
        (toBytes "Password:")).1
      = .ok (waitTestStr (toBytes "SRX240 (ttyp2)\n")) :=
  (WaitForBytes_within_one_read (toBytes "Password:") [waitTestStr []] (toBytes loginStr) []
    4111 (by decide) (by decide!) ((indexOfSub_some_iff _ _ _).mp (by decide!))
    (by decide!) (by decide!) (by decide!)).2.1.trans (by decide!)

/-- C1, counterexample. The stream `]]>]]>` delivered as the two reads `]]>` and `]]>`
contains the delimiter at position 0, both reads are non-empty, short and without error,
and `Recieve` fails with `transport base read no data`: the read buffer never holds the
whole delimiter. -/
theorem Recieve_split_delimiter :
    FirstOccurrence (toBytes TransportMessageSeparator) ([[93, 93, 62], [93, 93, 62]].flatten) 0
      ∧ (∀ d ∈ [[93, 93, 62], [93, 93, 62]], d ≠ [] ∧ d.length ≤ 4096)
      ∧ ((readerOf ([[93, 93, 62], [93, 93, 62]].map ReadResult.ok)).Recieve).1
          = .error (.errorf "transport base read no data") :=
  ⟨(indexOfSub_some_iff _ _ _).mp (by decide), by decide, by decide!⟩

/-! ## The classification of RPC errors -/

/-- C2. When the request is sent, a reply is received and decoded, `Session.Exec` returns
the decoded reply in every case; it returns an error exactly if some error of the reply
has severity `"error"` or the flag `ErrOnWarnings` is set and the reply has an error; the
error returned is the first error of the reply, in order, with severity `"error"` or
with the flag set. A reply without errors is a success, and a reply whose errors are all
warnings is a success without the flag and a failure with it. -/
theorem Exec_error_classification {σ : Type} (s : Session σ)
    (xmlUnmarshal : List Nat → RPCReply → Except GoError RPCReply)
    (rnd : List Nat) (methods : List RPCMethod) (st st1 st2 : σ) (req : String)
    (res : List Nat) (reply : RPCReply)
    (hreq : xmlMarshalRPCMessage (NewRPCMessage rnd methods) = .ok req)
    (hsend : s.Transport.Send (toBytes req) st = (none, st1))
    (hrecv : s.Transport.Recieve st1 = (.ok res, st2))
    (hdec : xmlUnmarshal res { RawReply := res } = .ok reply) :
    (s.Exec xmlUnmarshal rnd methods st).1.1 = some reply
      ∧ ((s.Exec xmlUnmarshal rnd methods st).1.2.isSome ↔
          (∃ e ∈ reply.Errors, e.Severity = "error")
            ∨ (s.ErrOnWarnings = true ∧ reply.Errors ≠ []))
      ∧ (∀ err, (s.Exec xmlUnmarshal rnd methods st).1.2 = some err ↔
          ∃ pre e post, reply.Errors = pre ++ e :: post
            ∧ (∀ x ∈ pre, ¬ (x.Severity = "error" ∨ s.ErrOnWarnings = true))
            ∧ (e.Severity = "error" ∨ s.ErrOnWarnings = true)
            ∧ err = GoError.rpc e)
      ∧ (reply.Errors = [] → (s.Exec xmlUnmarshal rnd methods st).1.2 = none)
      ∧ ((∀ e ∈ reply.Errors, e.Severity = "warning") → s.ErrOnWarnings = false →
          (s.Exec xmlUnmarshal rnd methods st).1.2 = none)
      ∧ ((∀ e ∈ reply.Errors, e.Severity = "warning") → reply.Errors ≠ [] →
          s.ErrOnWarnings = true → (s.Exec xmlUnmarshal rnd methods st).1.2.isSome) := by
  rw [Exec_decoded s xmlUnmarshal rnd methods st st1 st2 req res reply hreq hsend hrecv hdec]
  refine ⟨rfl, ?_, ?_, ?_, ?_, ?_⟩
  · simp only [Option.isSome_map']
    exact firstError_isSome _ _
  · intro err
    constructor
    · intro h
      cases hfe : Exec.firstError s.ErrOnWarnings reply.Errors with
      | none => simp [hfe] at h
      | some e =>
        simp [hfe] at h
        obtain ⟨pre, post, h1, h2, h3⟩ := (firstError_eq_some _ _ _).mp hfe
        exact ⟨pre, e, post, h1, h2, h3, h.symm⟩
    · rintro ⟨pre, e, post, h1, h2, h3, rfl⟩
      have := (firstError_eq_some _ _ _).mpr ⟨pre, post, h1, h2, h3⟩
      simp [this]
  · intro h
    simp [h, Exec.firstError]
  · intro hw hf
    have : ¬ (Exec.firstError s.ErrOnWarnings reply.Errors).isSome := by
      rw [firstError_isSome]
      rintro (⟨e, he, hs⟩ | ⟨h1, _⟩)
      · rw [hw e he] at hs
        exact absurd hs (by decide)
      · rw [hf] at h1
        exact absurd h1 (by decide)
    cases hfe : Exec.firstError s.ErrOnWarnings reply.Errors with
    | none => rfl
    | some e => simp [hfe] at this
  · intro _ hne ht
    simp only [Option.isSome_map']
    exact (firstError_isSome _ _).mpr (Or.inr ⟨ht, hne⟩)

/-- A reply with a warning followed by two errors, without the flag. -/
theorem Exec_error_classification_witness :
    ((({ ID := 19313, ServerCapabilities := [], ErrOnWarnings := false
         Transport := scriptedTransport (.ok deviceHello) none } :
          Session (List (List Nat))).Exec
        (decodeWithErrors [rpcErrorOf "warning" "w1", rpcErrorOf "error" "e1",
          rpcErrorOf "error" "e2"])
        (List.replicate 16 0) [MethodGetConfig "running"] [toBytes "<rpc-reply/>"]).1.2.isSome
      ↔ (∃ e ∈ [rpcErrorOf "warning" "w1", rpcErrorOf "error" "e1", rpcErrorOf "error" "e2"],
          e.Severity = "error") ∨ (false = true ∧
          [rpcErrorOf "warning" "w1", rpcErrorOf "error" "e1", rpcErrorOf "error" "e2"] ≠ [])) :=
  (Exec_error_classification
    ({ ID := 19313, ServerCapabilities := [], ErrOnWarnings := false
       Transport := scriptedTransport (.ok deviceHello) none } : Session (List (List Nat)))
    (decodeWithErrors [rpcErrorOf "warning" "w1", rpcErrorOf "error" "e1",
      rpcErrorOf "error" "e2"])
    (List.replicate 16 0) [MethodGetConfig "running"] [toBytes "<rpc-reply/>"]
    [toBytes "<rpc-reply/>"] [] _ (toBytes "<rpc-reply/>")
    { Errors := [rpcErrorOf "warning" "w1", rpcErrorOf "error" "e1", rpcErrorOf "error" "e2"]
      RawReply := toBytes "<rpc-reply/>" }
    rfl rfl rfl rfl).2.1

/-! ## Framing: `Send` -/

/-- C3. When the three writes of `Send(d)` succeed, the stream has taken exactly the
payload `d`, then the six bytes of the delimiter, then one newline, in three calls of
`Write` and in this order, and `Send` returns no error. -/
theorem Send_writes_frame (t : transportBase) (d : List Nat)
    (hok : ∀ o ∈ t.rwc.faults.take 3, o = none) :
    (t.Send d).1 = none
      ∧ (t.Send d).2.rwc.written = t.rwc.written ++ (d ++ [93, 93, 62, 93, 93, 62] ++ [10])
      ∧ (t.Send d).2.rwc.calls = t.rwc.calls ++ [d, [93, 93, 62, 93, 93, 62], [10]]
      ∧ (t.Send d).2.rwc.reads = t.rwc.reads := by
  have hsep : toBytes TransportMessageSeparator = [93, 93, 62, 93, 93, 62] := by decide
  rcases hf : t.rwc.faults with _ | ⟨o1, _ | ⟨o2, _ | ⟨o3, rest⟩⟩⟩
  · simp [transportBase.Send, ReadWriteCloser.Write, hf, hsep]
  · have h1 : o1 = none := hok o1 (by simp [hf])
    subst h1
    simp [transportBase.Send, ReadWriteCloser.Write, hf, hsep]
  · have h1 : o1 = none := hok o1 (by simp [hf])
    have h2 : o2 = none := hok o2 (by simp [hf])
    subst h1 h2
    simp [transportBase.Send, ReadWriteCloser.Write, hf, hsep]
  · have h1 : o1 = none := hok o1 (by simp [hf])
    have h2 : o2 = none := hok o2 (by simp [hf])
    have h3 : o3 = none := hok o3 (by simp [hf])
    subst h1 h2 h3
    simp [transportBase.Send, ReadWriteCloser.Write, hf, hsep]

/-- The payload `<rpc/>` on a stream whose writes succeed. -/
theorem Send_writes_frame_witness :
    ((writerOf [none, none]).Send (toBytes "<rpc/>")).1 = none
      ∧ ((writerOf [none, none]).Send (toBytes "<rpc/>")).2.rwc.written
          = toBytes "<rpc/>]]>]]>\n" :=
  ⟨(Send_writes_frame (writerOf [none, none]) (toBytes "<rpc/>") (by decide)).1,
    (Send_writes_frame (writerOf [none, none]) (toBytes "<rpc/>") (by decide)).2.1.trans
      (by decide)⟩

/-- C4. `Send(d)` returns an error exactly if one of its three writes fails; the error
is that of the first failing write, and the calls of `Write` made are those up to and
including the failing one: nothing is written after it. -/
theorem Send_error_iff (t : transportBase) (d : List Nat) :
    ((t.Send d).1.isSome ↔ ∃ i < 3, ∃ f, t.rwc.faults[i]? = some (some f))
      ∧ ∀ i f, i < 3 → t.rwc.faults[i]? = some (some f) →
          (∀ j < i, t.rwc.faults[j]? = some none) →
          (t.Send d).1 = some f.err
            ∧ (t.Send d).2.rwc.calls
                = t.rwc.calls ++ [d, toBytes TransportMessageSeparator, [10]].take (i + 1)
            ∧ (t.Send d).2.rwc.faults = t.rwc.faults.drop (i + 1) := by
  have h3 : ∀ i, i < 3 → i = 0 ∨ i = 1 ∨ i = 2 := fun i hi => by omega
  constructor
  · constructor
    · intro h
      rcases hf : t.rwc.faults with _ | ⟨_ | f1, _ | ⟨_ | f2, _ | ⟨_ | f3, rest⟩⟩⟩ <;>
        simp [transportBase.Send, ReadWriteCloser.Write, hf] at h
      all_goals
        first
          | exact ⟨0, by omega, _, by simp; rfl⟩
          | exact ⟨1, by omega, _, by simp; rfl⟩
          | exact ⟨2, by omega, _, by simp; rfl⟩
    · rintro ⟨i, hi, f, hfi⟩
      rcases hf : t.rwc.faults with _ | ⟨_ | f1, _ | ⟨_ | f2, _ | ⟨_ | f3, rest⟩⟩⟩ <;>
        rw [hf] at hfi <;>
        rcases h3 i hi with rfl | rfl | rfl <;>
        simp at hfi <;>
        simp [transportBase.Send, ReadWriteCloser.Write, hf]
  · intro i f hi hfi hbefore
    rcases h3 i hi with rfl | rfl | rfl
    · rcases hf : t.rwc.faults with _ | ⟨o1, rest⟩
      · simp [hf] at hfi
      · simp [hf] at hfi
        subst hfi
        simp [transportBase.Send, ReadWriteCloser.Write, hf]
    · have h0 := hbefore 0 (by omega)
      rcases hf : t.rwc.faults with _ | ⟨o1, _ | ⟨o2, rest⟩⟩
      · simp [hf] at hfi
      · simp [hf] at hfi
      · simp [hf] at hfi h0
        subst hfi h0
        simp [transportBase.Send, ReadWriteCloser.Write, hf]
    · have h0 := hbefore 0 (by omega)
      have h1 := hbefore 1 (by omega)
      rcases hf : t.rwc.faults with _ | ⟨o1, _ | ⟨o2, _ | ⟨o3, rest⟩⟩⟩
      · simp [hf] at hfi
      · simp [hf] at hfi
      · simp [hf] at hfi
      · simp [hf] at hfi h0 h1
        subst hfi h0 h1
        simp [transportBase.Send, ReadWriteCloser.Write, hf]

/-! ## A match on bytes that were not read -/

/-- C5, at the failing input. The stream `zz>]]>]]`, delivered as the reads `zz>]]>` and
`]]`, contains no delimiter, yet `Recieve` returns the bytes `zz>]]>` without error: the
second read leaves `]]` followed by the old bytes `>]]>` in the buffer, and the whole
buffer is searched. -/
theorem Recieve_stale_match :
    (∀ k, ¬ toBytes TransportMessageSeparator <+: (toBytes "zz>]]>" ++ toBytes "]]").drop k)
      ∧ ((readerOf [.ok (toBytes "zz>]]>"), .ok (toBytes "]]")]).Recieve).1
          = .ok (toBytes "zz>]]>") :=
  ⟨(indexOfSub_none_iff _ _).mp (by decide), by decide!⟩

/-! ## The handshake -/

/-- C6. On a transport whose `ReceiveHello` returns the hello `h` and whose `SendHello`
then succeeds, `NewSession` calls `ReceiveHello` and then `SendHello`, once each, with a
hello that holds the base capability alone and no session id, and returns a session with
the id and the capabilities of `h`, the transport itself, and `ErrOnWarnings` false. -/
theorem NewSession_handshake {σ : Type} (t : Transport σ) (st st1 : σ)
    (h : TransportHelloMessage)
    (hrecv : t.ReceiveHello st = (.ok h, st1))
    (hsend : (t.SendHello { Capabilities := [CapabilityNetconfBase], SessionID := 0 } st1).1
      = none) :
    NewSession t.logged (st, [])
        = (.ok { ID := h.SessionID, ServerCapabilities := h.Capabilities
                 Transport := t.logged, ErrOnWarnings := false },
            ((t.SendHello { Capabilities := [CapabilityNetconfBase], SessionID := 0 } st1).2,
              [Call.ReceiveHello,
                Call.SendHello { Capabilities := [CapabilityNetconfBase], SessionID := 0 }]))
      ∧ NewSession t st
        = (.ok { ID := h.SessionID, ServerCapabilities := h.Capabilities
                 Transport := t, ErrOnWarnings := false },
            (t.SendHello { Capabilities := [CapabilityNetconfBase], SessionID := 0 } st1).2) := by
  constructor
  · simp only [NewSession, Transport.logged, hrecv, hsend]
    simp
  · unfold NewSession
    simp only [hrecv]
    generalize hr : t.SendHello { Capabilities := [CapabilityNetconfBase], SessionID := 0 } st1 = r
      at hsend
    rcases r with ⟨e, st2⟩
    simp only at hsend
    subst hsend
    simp [hr]

/-- The hello of the device of the test suite: session 19313 with 7 capabilities. -/
theorem NewSession_handshake_witness :
    (NewSession (scriptedTransport (.ok deviceHello) none) []).1.toOption.map
        (fun s => (s.ID, s.ServerCapabilities.length, s.ErrOnWarnings))
      = some (19313, 7, false) := by
  rw [(NewSession_handshake (scriptedTransport (.ok deviceHello) none) [] [] deviceHello
    rfl rfl).2]
  rfl

/-! ## The encoding of a request -/

/-- C8. The request that `Session.Exec` encodes and sends for the methods `m1 … mn` is
exactly the start tag of `rpc` with the attribute `message-id` equal to the identifier
of the message, the bodies of the methods in the order given, unchanged, and the end tag
of `rpc`; these bytes are the argument of the first call on the transport, `Send`. -/
theorem Exec_request_encoding {σ : Type} (t : Transport σ) (id : Int)
    (caps : List Capability) (w : Bool)
    (xmlUnmarshal : List Nat → RPCReply → Except GoError RPCReply)
    (rnd : List Nat) (methods : List RPCMethod) (st : σ) :
    xmlMarshalRPCMessage (NewRPCMessage rnd methods)
        = .ok ("<rpc message-id=\"" ++ (NewRPCMessage rnd methods).ID ++ "\">"
            ++ (methods.map RPCMethod.MarshalRPCMethod).foldr (· ++ ·) "" ++ "</rpc>")
      ∧ (NewRPCMessage rnd methods).Methods = methods
      ∧ (({ ID := id, ServerCapabilities := caps, Transport := t.logged, ErrOnWarnings := w } :
            Session (σ × List Call)).Exec xmlUnmarshal rnd methods (st, [])).2.2.head?
          = some (Call.Send (toBytes ("<rpc message-id=\"" ++ (NewRPCMessage rnd methods).ID
              ++ "\">" ++ (methods.map RPCMethod.MarshalRPCMethod).foldr (· ++ ·) ""
              ++ "</rpc>"))) :=
  ⟨xmlMarshalRPCMessage_eq rnd methods, rfl,
    Exec_logged_head t id caps w xmlUnmarshal rnd methods st _
      (xmlMarshalRPCMessage_eq rnd methods)⟩

/-! ## The message identifier -/

/-- C9. For every draw of 16 bytes the identifier has 36 characters; the characters at
positions 8, 13, 18 and 23 are `-` and all others are lower-case hexadecimal digits, in
groups of 8, 4, 4, 4 and 12; the first digit of the third group is `4`, the first digit
of the fourth group is one of `8`, `9`, `a`, `b`, and every other digit is the
corresponding nibble of the draw, in byte order. -/
theorem rpcUUID_format (b : List Nat) (hlen : b.length = 16) (hb : ∀ x ∈ b, x < 256) :
    (rpcUUID b).length = 36
      ∧ (∀ i ∈ [8, 13, 18, 23], (rpcUUID b).data[i]? = some '-')
      ∧ (∀ j < 32, ∃ n < 16, (rpcUUID b).data[uuidPos j]? = some (hexChar n))
      ∧ (rpcUUID b).data[14]? = some '4'
      ∧ (rpcUUID b).data[19]? ∈ [some '8', some '9', some 'a', some 'b']
      ∧ (∀ j < 32, j ≠ 12 → j ≠ 16 →
          (rpcUUID b).data[uuidPos j]? = some (hexChar (nibble b j))) := by
  obtain ⟨b0, b1, b2, b3, b4, b5, b6, b7, b8, b9, b10, b11, b12, b13, b14, b15, rfl⟩ :=
    list16 b hlen
  have hd := rpcUUID_data b0 b1 b2 b3 b4 b5 b6 b7 b8 b9 b10 b11 b12 b13 b14 b15 hb
  simp only [List.mem_cons, List.mem_singleton, List.not_mem_nil, or_false, forall_eq_or_imp,
    forall_eq] at hb
  obtain ⟨h0, h1, h2, h3, h4, h5, h6, h7, h8, h9, h10, h11, h12, h13, h14, h15⟩ := hb
  rw [String.length, hd]
  refine ⟨rfl, ?_, ?_, rfl, ?_, ?_⟩
  · intro i hi
    simp only [List.mem_cons, List.mem_singleton, List.not_mem_nil, or_false] at hi
    rcases hi with rfl | rfl | rfl | rfl <;> rfl
  · intro j hj
    interval_cases j
    all_goals first
      | exact ⟨4, by omega, rfl⟩
      | exact ⟨_, by omega, rfl⟩
  · have h4 : b8 / 16 % 4 < 4 := Nat.mod_lt _ (by omega)
    have e : ([hexChar (b0 / 16), hexChar (b0 % 16), hexChar (b1 / 16), hexChar (b1 % 16),
         hexChar (b2 / 16), hexChar (b2 % 16), hexChar (b3 / 16), hexChar (b3 % 16), '-',
         hexChar (b4 / 16), hexChar (b4 % 16), hexChar (b5 / 16), hexChar (b5 % 16), '-',
         '4', hexChar (b6 % 16), hexChar (b7 / 16), hexChar (b7 % 16), '-',
         hexChar (8 + b8 / 16 % 4), hexChar (b8 % 16), hexChar (b9 / 16), hexChar (b9 % 16), '-',
         hexChar (b10 / 16), hexChar (b10 % 16), hexChar (b11 / 16), hexChar (b11 % 16),
         hexChar (b12 / 16), hexChar (b12 % 16), hexChar (b13 / 16), hexChar (b13 % 16),
         hexChar (b14 / 16), hexChar (b14 % 16), hexChar (b15 / 16), hexChar (b15 % 16)])[19]?
        = some (hexChar (8 + b8 / 16 % 4)) := rfl
    rw [e]
    generalize b8 / 16 % 4 = v at h4
    interval_cases v <;> decide
  · intro j hj h12 h16
    interval_cases j
    all_goals first
      | exact absurd rfl h12
      | exact absurd rfl h16
      | rfl

/-- The draw `0, 1, …, 15`. -/
theorem rpcUUID_format_witness :
    (rpcUUID (List.range 16)).length = 36
      ∧ rpcUUID (List.range 16) = "00010203-0405-4607-8809-0a0b0c0d0e0f" :=
  ⟨(rpcUUID_format (List.range 16) (by decide) (by decide)).1, by decide⟩

/-! ## Read errors -/

/-- C10, the behaviour of the code. A read of one or more bytes with an error other than
`io.EOF` makes `Recieve` fail with the error `transport base wait-function failed`, not
with the error of the stream; a read of one or more bytes with `io.EOF` makes it fail
with `io.EOF` itself; a read of no bytes, and the end of the stream, make it fail with
`transport base read no data`. -/
theorem Recieve_read_errors :
    (∀ (x : Nat) (d : List Nat) (code : Nat) (rest : List ReadResult),
        ((readerOf (⟨x :: d, some (.stream code)⟩ :: rest)).Recieve).1
          = .error (.errorf "transport base wait-function failed"))
      ∧ (∀ (x : Nat) (d : List Nat) (rest : List ReadResult),
        ((readerOf (⟨x :: d, some .EOF⟩ :: rest)).Recieve).1 = .error .EOF)
      ∧ (∀ (e : Option GoError) (rest : List ReadResult),
        ((readerOf (⟨[], e⟩ :: rest)).Recieve).1
          = .error (.errorf "transport base read no data"))
      ∧ ((readerOf []).Recieve).1 = .error (.errorf "transport base read no data")
      ∧ ((readerOf [⟨toBytes "abc", some (.stream 7)⟩]).Recieve).1
          ≠ .error (.stream 7) := by
  refine ⟨?_, ?_, ?_, ?_, ?_⟩
  · intro x d code rest
    simp [transportBase.Recieve, transportBase.WaitForBytes, transportBase.WaitForFunc,
      readerOf, WaitForFunc.loop]
  · intro x d rest
    simp [transportBase.Recieve, transportBase.WaitForBytes, transportBase.WaitForFunc,
      readerOf, WaitForFunc.loop]
  · intro e rest
    simp [transportBase.Recieve, transportBase.WaitForBytes, transportBase.WaitForFunc,
      readerOf, WaitForFunc.loop]
  · simp [transportBase.Recieve, transportBase.WaitForBytes, transportBase.WaitForFunc,
      readerOf, WaitForFunc.loop]
  · decide!

/-! ## Lemmas: reads of a filling reader, and the calls of `Exec` -/

/-- On a stream whose writes do not fail, `Send` returns nil and the stream has taken the
payload, the delimiter and a newline. -/
theorem Send_no_faults (t : transportBase) (d : List Nat) (h : t.rwc.faults = []) :
    (t.Send d).1 = none
      ∧ (t.Send d).2.rwc.written = t.rwc.written ++ (d ++ toBytes TransportMessageSeparator ++ [10])
      ∧ (t.Send d).2.rwc.faults = [] := by
  simp [transportBase.Send, ReadWriteCloser.Write, h]

/-- A pattern that occurs first at `k` ends within the list. -/
theorem FirstOccurrence.le_length {m s : List Nat} {k : Nat} (h : FirstOccurrence m s k) :
    k + m.length ≤ s.length := by
  have := h.1.length_le
  rw [List.length_drop] at this
  by_cases hk : k ≤ s.length
  · omega
  · have h0 : m.length = 0 := by omega
    have hm : m = [] := List.length_eq_zero.mp h0
    subst hm
    have := h.2 0 (by omega)
    exact absurd (List.nil_prefix) this

/-- The loop over the reads of a `bytes.Reader`: the bytes before the first occurrence of
the pattern are returned when the occurrence does not cross a multiple of 4096. -/
theorem loop_bytesReader (m : List Nat) (hm : m ≠ []) :
    ∀ (fuel : Nat) (s : List Nat) (k : Nat) (buf out : List Nat),
      s.length ≤ fuel → buf.length = 4096 → FirstOccurrence m s k →
      k % 4096 + m.length ≤ 4096 →
      (WaitForFunc.loop (fun x => (bytesIndex x m, none))
          ((bytesReader.chunks fuel s).map ReadResult.ok) buf out).1
        = .ok (out ++ s.take k) := by
  have hmlen : 0 < m.length := List.length_pos.mpr hm
  intro fuel
  induction fuel with
  | zero =>
    intro s k buf out hs _ hfirst _
    have := hfirst.le_length
    omega
  | succ fuel ih =>
    intro s k buf out hs hbuf hfirst hfit
    have hlen := hfirst.le_length
    have hsne : s ≠ [] := by
      intro h0
      rw [h0, List.length_nil] at hlen
      omega
    have hcne : s.take 4096 ≠ [] := by
      intro h0
      have := congrArg List.length h0
      rw [List.length_take, List.length_nil] at this
      have : 0 < s.length := List.length_pos.mpr hsne
      omega
    rw [bytesReader.chunks, if_neg hsne, List.map_cons]
    by_cases hk : k < 4096
    · have hkm : k % 4096 = k := Nat.mod_eq_of_lt hk
      have hb := first_in_buffer m [] (s.take 4096) (s.drop 4096)
        (buf.drop (s.take 4096).length) k
        (by simpa using hfirst) (by simp)
        (by rw [List.length_nil, List.length_take]; omega)
      rw [loop_step_hit m _ _ _ _ (k - ([] : List Nat).length) hcne (bytesIndex_of_first hb)]
      simp only [List.length_nil, Nat.sub_zero]
      congr 2
      unfold fillBuf
      rw [List.take_append_eq_append_take, List.take_take]
      have h1 : min k 4096 = k := by omega
      have h2 : k - (s.take 4096).length = 0 := by
        rw [List.length_take]; omega
      rw [h1, h2, List.take_zero, List.append_nil]
    · have hfull : (s.take 4096).length = 4096 := by
        rw [List.length_take]; omega
      have hfill : fillBuf buf (s.take 4096) = s.take 4096 := by
        unfold fillBuf
        rw [hfull, List.drop_eq_nil_of_le (by omega), List.append_nil]
      have hmiss : bytesIndex (fillBuf buf (s.take 4096)) m = -1 := by
        rw [hfill, bytesIndex_neg_iff]
        intro j hj
        have hjl := hj.length_le
        rw [List.length_drop, hfull] at hjl
        have hpre : (s.take 4096).drop j <+: s.drop j := by
          rw [List.drop_take]
          exact List.take_prefix _ _
        exact hfirst.2 j (by omega) (hj.trans hpre)
      rw [loop_step_miss m _ _ buf out hcne hmiss, hfill]
      have hfirst2 : FirstOccurrence m (s.drop 4096) (k - 4096) := by
        constructor
        · rw [List.drop_drop]
          have : 4096 + (k - 4096) = k := by omega
          rw [this]
          exact hfirst.1
        · intro j hj hjp
          rw [List.drop_drop] at hjp
          exact hfirst.2 (4096 + j) (by omega) hjp
      rw [ih (s.drop 4096) (k - 4096) (s.take 4096) (out ++ s.take 4096)
        (by rw [List.length_drop]; omega) hfull hfirst2 (by omega)]
      have e : s.take k = s.take 4096 ++ (s.drop 4096).take (k - 4096) := by
        have hk2 : k = 4096 + (k - 4096) := by omega
        have h3 := List.take_add s 4096 (k - 4096)
        rw [← hk2] at h3
        exact h3
      rw [e, List.append_assoc]

/-- The first occurrence of the delimiter in the frame that `Send` writes, when the
payload followed by the delimiter has no earlier occurrence. -/
theorem first_in_frame (m d : List Nat) (hfirst : FirstOccurrence m (d ++ m) d.length) :
    FirstOccurrence m (d ++ m ++ [10]) d.length := by
  constructor
  · rw [List.append_assoc, List.drop_left]
    exact List.prefix_append _ _
  · intro j hj hjp
    apply hfirst.2 j hj
    have e : (d ++ m ++ [10]).drop j = (d ++ m).drop j ++ [10] := by
      rw [List.drop_append_eq_append_drop]
      have : j - (d ++ m).length = 0 := by rw [List.length_append]; omega
      rw [this, List.drop_zero]
    rw [e] at hjp
    refine List.prefix_of_prefix_length_le hjp (List.prefix_append _ _) ?_
    rw [List.length_drop, List.length_append]
    omega

/-- The calls of `Exec` on its transport: `Send` with the encoded request, then `Recieve`
unless `Send` failed. -/
theorem Exec_logged_calls {σ : Type} (t : Transport σ) (id : Int)
    (caps : List Capability) (w : Bool)
    (xmlUnmarshal : List Nat → RPCReply → Except GoError RPCReply)
    (rnd : List Nat) (methods : List RPCMethod) (st : σ) (req : String)
    (hreq : xmlMarshalRPCMessage (NewRPCMessage rnd methods) = .ok req) :
    (({ ID := id, ServerCapabilities := caps, Transport := t.logged, ErrOnWarnings := w } :
        Session (σ × List Call)).Exec xmlUnmarshal rnd methods (st, [])).2.2
      = if (t.Send (toBytes req) st).1.isSome then [Call.Send (toBytes req)]
        else [Call.Send (toBytes req), Call.Recieve] := by
  unfold Session.Exec
  rw [hreq]
  simp only [Transport.logged]
  generalize t.Send (toBytes req) st = r1
  rcases r1 with ⟨_ | e, st1⟩
  · simp only
    generalize t.Recieve st1 = r2
    rcases r2 with ⟨e | res, st2⟩
    · simp
    · simp only
      cases xmlUnmarshal res { RawReply := res } with
      | error e => simp
      | ok reply => cases h : Exec.firstError w reply.Errors <;> simp [h]
  · simp

/-- The method `Exec` never returns nil for both the reply and the error. -/
theorem Exec_not_nil_nil {σ : Type} (s : Session σ)
    (xmlUnmarshal : List Nat → RPCReply → Except GoError RPCReply)
    (rnd : List Nat) (methods : List RPCMethod) (st : σ) :
    (s.Exec xmlUnmarshal rnd methods st).1 ≠ (none, none) := by
  unfold Session.Exec
  repeat' split
  all_goals simp

/-- Two values below 16 with the same hexadecimal digit are equal. -/
theorem hexChar_inj : ∀ x < 16, ∀ y < 16, hexChar x = hexChar y → x = y := by decide!

/-- A byte is given by the digits of its two nibbles. -/
theorem byte_of_digits (x y : Nat) (hx : x < 256) (hy : y < 256)
    (hhi : hexChar (x / 16) = hexChar (y / 16)) (hlo : hexChar (x % 16) = hexChar (y % 16)) :
    x = y := by
  have h1 := hexChar_inj (x / 16) (by omega) (y / 16) (by omega) hhi
  have h2 := hexChar_inj (x % 16) (by omega) (y % 16) (by omega) hlo
  omega

/-- The low nibble of a byte is given by its digit. -/
theorem nibble_of_digit (x y : Nat) (hlo : hexChar (x % 16) = hexChar (y % 16)) :
    x % 16 = y % 16 :=
  hexChar_inj (x % 16) (Nat.mod_lt _ (by omega)) (y % 16) (Nat.mod_lt _ (by omega)) hlo

/-- The free bits of byte 8 are given by its two digits. -/
theorem variant_of_digits (x y : Nat)
    (hhi : hexChar (8 + x / 16 % 4) = hexChar (8 + y / 16 % 4))
    (hlo : hexChar (x % 16) = hexChar (y % 16)) : x % 64 = y % 64 := by
  have h1 := hexChar_inj (8 + x / 16 % 4) (by omega) (8 + y / 16 % 4) (by omega) hhi
  have h2 := hexChar_inj (x % 16) (by omega) (y % 16) (by omega) hlo
  omega

/-! ## Failures of the handshake -/

/-- C11. `NewSession` fails exactly if `ReceiveHello` fails or the `SendHello` after it
fails; it then returns the error of that step and no session. When `ReceiveHello` fails
the only call made on the transport is `ReceiveHello`: `SendHello` is not called. In no
case is `Close` called. -/
theorem NewSession_failure {σ : Type} (t : Transport σ) (st : σ) :
    ((NewSession t.logged (st, [])).1.toOption.isNone ↔
        (t.ReceiveHello st).1.toOption.isNone
          ∨ (t.SendHello { Capabilities := [CapabilityNetconfBase] }
              (t.ReceiveHello st).2).1.isSome)
      ∧ (∀ e, (t.ReceiveHello st).1 = .error e →
          (NewSession t.logged (st, [])).1.toOption.isNone
            ∧ (NewSession t.logged (st, [])).1 = .error e
            ∧ (NewSession t.logged (st, [])).2.2 = [Call.ReceiveHello])
      ∧ (∀ h e, (t.ReceiveHello st).1 = .ok h →
          (t.SendHello { Capabilities := [CapabilityNetconfBase] } (t.ReceiveHello st).2).1
            = some e →
          (NewSession t.logged (st, [])).1 = .error e
            ∧ (NewSession t.logged (st, [])).2.2
              = [Call.ReceiveHello, Call.SendHello { Capabilities := [CapabilityNetconfBase] }])
      ∧ Call.Close ∉ (NewSession t.logged (st, [])).2.2 := by
  unfold NewSession
  simp only [Transport.logged]
  rcases hr : t.ReceiveHello st with ⟨e | h, st1⟩
  · simp [Except.toOption]
  · simp only
    rcases hs : t.SendHello { Capabilities := [CapabilityNetconfBase] } st1 with ⟨_ | e, st2⟩
    · simp [Except.toOption]
    · simp [Except.toOption]


/-! ## Lemmas: the model of the XML decoder -/

/-- The loop over character data reads plain bytes up to the next `<`. -/
theorem scanText_plain (t : List Nat) :
    ∀ (b0 b1 : Nat) (acc rest : List Nat), (∀ b ∈ t, plainByte b = true) →
      noCDEnd b0 b1 t = true → b1 ≠ 13 →
      scanText b0 b1 (t ++ 60 :: rest) acc = .ok (acc ++ t, 60 :: rest) := by
  induction t with
  | nil =>
    intro b0 b1 acc rest _ _ _
    simp [scanText]
  | cons b t ih =>
    intro b0 b1 acc rest hp hcd h13
    have hb : plainByte b = true := hp b (List.mem_cons_self b t)
    have hb60 : b ≠ 60 := by
      intro h; subst h; revert hb; decide
    have hb38 : b ≠ 38 := by
      intro h; subst h; revert hb; decide
    have hb13 : b ≠ 13 := by
      intro h; subst h; revert hb; decide
    simp only [noCDEnd, Bool.and_eq_true, Bool.not_eq_true', decide_eq_true_eq] at hcd
    have hcd1 : ¬ (b0 = 93 ∧ b1 = 93 ∧ b = 62) := by
      rintro ⟨h1, h2, h3⟩
      have := hcd.1
      simp [h1, h2, h3] at this
    rw [List.cons_append, scanText]
    simp only [hcd1, if_false, hb60, hb38, hb13, h13, false_and]
    rw [ih b1 b (acc ++ [b]) rest (fun c hc => hp c (List.mem_cons_of_mem b hc)) hcd.2 hb13]
    simp

/-- Plain bytes pass the check of character data. -/
theorem checkText_plain (t : List Nat) (hp : ∀ b ∈ t, plainByte b = true) :
    checkText t = .ok () := by
  induction t with
  | nil => rfl
  | cons b t ih =>
    have hb : plainByte b = true := hp b (List.mem_cons_self b t)
    have h128 : ¬ 128 ≤ b := by
      intro h
      simp only [plainByte, Bool.and_eq_true, Bool.or_eq_true, decide_eq_true_eq] at hb
      omega
    have hr : b = 9 ∨ b = 10 ∨ b = 13 ∨ 32 ≤ b := by
      simp only [plainByte, Bool.and_eq_true, Bool.or_eq_true, decide_eq_true_eq] at hb
      omega
    rw [checkText]
    simp only [h128, if_false, hr, if_true]
    exact ih (fun c hc => hp c (List.mem_cons_of_mem b hc))

/-- Plain character data before a `<` is one token. -/
theorem nextToken_text (t rest : List Nat) (hne : t ≠ []) (hp : plainText t = true) :
    nextToken (t ++ 60 :: rest) = .ok (.CharData t, 60 :: rest) := by
  simp only [plainText, Bool.and_eq_true, List.all_eq_true] at hp
  obtain ⟨hall, hcd⟩ := hp
  cases t with
  | nil => exact absurd rfl hne
  | cons b t =>
    have hb : plainByte b = true := hall b (List.mem_cons_self b t)
    have hb60 : b ≠ 60 := by
      intro h; subst h; revert hb; decide
    have hs := scanText_plain (b :: t) 0 0 [] rest hall hcd (by decide)
    have hc := checkText_plain (b :: t) hall
    rw [List.cons_append] at hs ⊢
    unfold nextToken
    split
    · rename_i h; cases h
    · rename_i h; simp at h; exact absurd h.1 hb60
    · rename_i h; simp at h; exact absurd h.1 hb60
    · rename_i h; simp at h; exact absurd h.1 hb60
    · rename_i h; simp at h; exact absurd h.1 hb60
    · rename_i h; simp at h; exact absurd h.1 hb60
    · rename_i h; simp at h; exact absurd h.1 hb60
    · rename_i h; simp at h; exact absurd h.1 hb60
    · rename_i h; simp at h; exact absurd h.1 hb60
    · rw [hs]
      simp only [List.nil_append]
      rw [hc]

/-- The loop over a comment reads its body and the closing `-->`. -/
theorem scanComment_body (body : List Nat) :
    ∀ (b0 b1 : Nat) (acc rest : List Nat), ¬ (b0 = 45 ∧ b1 = 45) →
      commentBody b1 body = true →
      scanComment b0 b1 (body ++ 45 :: 45 :: 62 :: rest) acc = .ok (acc ++ body, rest) := by
  induction body with
  | nil =>
    intro b0 b1 acc rest h0 hb
    have h1 : b1 ≠ 45 := by simpa [commentBody] using hb
    simp [scanComment, h0, h1]
  | cons b body ih =>
    intro b0 b1 acc rest h0 hb
    simp only [commentBody, Bool.and_eq_true, Bool.not_eq_true', decide_eq_true_eq] at hb
    have h1 : ¬ (b1 = 45 ∧ b = 45) := by
      rintro ⟨h2, h3⟩
      have := hb.1
      simp [h2, h3] at this
    rw [List.cons_append, scanComment]
    simp only [h0, if_false]
    rw [ih b1 b (acc ++ [b]) rest h1 hb.2]
    simp

/-- A comment is one token. -/
theorem nextToken_comment (body rest : List Nat) (hb : commentBody 0 body = true) :
    nextToken (toBytes "<!--" ++ body ++ toBytes "-->" ++ rest) = .ok (.Comment body, rest) := by
  have e : toBytes "<!--" ++ body ++ toBytes "-->" ++ rest
      = 60 :: 33 :: 45 :: 45 :: (body ++ 45 :: 45 :: 62 :: rest) := by
    have h1 : toBytes "<!--" = [60, 33, 45, 45] := by decide
    have h2 : toBytes "-->" = [45, 45, 62] := by decide
    rw [h1, h2]
    simp
  rw [e, nextToken, scanComment_body body 0 0 [] rest (by decide) hb]
  simp


/-- An end tag of the name `hello` is one token. -/
theorem nextToken_end_hello (rest : List Nat) :
    nextToken (toBytes "</hello>" ++ rest) = .ok (.EndElement (toBytes "hello"), rest) := by
  have h : toBytes "</hello>" = [60, 47, 104, 101, 108, 108, 111, 62] := by decide
  have h2 : toBytes "hello" = [104, 101, 108, 108, 111] := by decide
  rw [h, h2]
  rfl

/-- A start tag of the name `capability` is one token. -/
theorem nextToken_start_capability (rest : List Nat) :
    nextToken (toBytes "<capability>" ++ rest)
      = .ok (.StartElement (toBytes "capability"), rest) := by
  have h : toBytes "<capability>"
      = [60, 99, 97, 112, 97, 98, 105, 108, 105, 116, 121, 62] := by decide
  have h2 : toBytes "capability" = [99, 97, 112, 97, 98, 105, 108, 105, 116, 121] := by decide
  rw [h, h2]
  rfl

/-- An end tag of the name `capability` is one token. -/
theorem nextToken_end_capability (rest : List Nat) :
    nextToken (toBytes "</capability>" ++ rest)
      = .ok (.EndElement (toBytes "capability"), rest) := by
  have h : toBytes "</capability>"
      = [60, 47, 99, 97, 112, 97, 98, 105, 108, 105, 116, 121, 62] := by decide
  have h2 : toBytes "capability" = [99, 97, 112, 97, 98, 105, 108, 105, 116, 121] := by decide
  rw [h, h2]
  rfl

/-- A start tag of the name `session-id` is one token. -/
theorem nextToken_start_sessionID (rest : List Nat) :
    nextToken (toBytes "<session-id>" ++ rest)
      = .ok (.StartElement (toBytes "session-id"), rest) := by
  have h : toBytes "<session-id>"
      = [60, 115, 101, 115, 115, 105, 111, 110, 45, 105, 100, 62] := by decide
  have h2 : toBytes "session-id" = [115, 101, 115, 115, 105, 111, 110, 45, 105, 100] := by
    decide
  rw [h, h2]
  rfl

/-- An end tag of the name `session-id` is one token. -/
theorem nextToken_end_sessionID (rest : List Nat) :
    nextToken (toBytes "</session-id>" ++ rest)
      = .ok (.EndElement (toBytes "session-id"), rest) := by
  have h : toBytes "</session-id>"
      = [60, 47, 115, 101, 115, 115, 105, 111, 110, 45, 105, 100, 62] := by decide
  have h2 : toBytes "session-id" = [115, 101, 115, 115, 105, 111, 110, 45, 105, 100] := by
    decide
  rw [h, h2]
  rfl

/-- A token that the decoder passes, and what follows it. -/
theorem Decodes.token {st st1 : HelloDecoder} {tok : XMLToken} {p rest : List Nat}
    {h : TransportHelloMessage} (hp : p ≠ [])
    (ht : nextToken (p ++ rest) = .ok (tok, rest)) (hs : st.step tok = .ok (.more st1))
    (hd : Decodes st1 rest h) : Decodes st (p ++ rest) h := by
  obtain ⟨n, hn, hr⟩ := hd
  refine ⟨n + 1, ?_, ?_⟩
  · have : 0 < p.length := List.length_pos.mpr hp
    rw [List.length_append]
    omega
  · rw [HelloDecoder.run, ht]
    simp only [hs]
    exact hr

/-- The token that ends the decoding. -/
theorem Decodes.last {st : HelloDecoder} {tok : XMLToken} {p rest : List Nat}
    {h : TransportHelloMessage} (hp : p ≠ [])
    (ht : nextToken (p ++ rest) = .ok (tok, rest)) (hs : st.step tok = .ok (.done h)) :
    Decodes st (p ++ rest) h := by
  refine ⟨1, ?_, ?_⟩
  · have : 0 < p.length := List.length_pos.mpr hp
    rw [List.length_append]
    omega
  · rw [HelloDecoder.run, ht]
    simp only [hs]

/-- Character data and comments are passed over where no field is being read. -/
theorem Decodes.gap_aux {st : HelloDecoder} {rest : List Nat} {h : TransportHelloMessage}
    (hst : st.stack ≠ capabilityPath ∧ st.stack ≠ sessionIDPath)
    (hd : Decodes st (60 :: rest) h) (more : List (List Nat × List Nat)) :
    ∀ text : List Nat, plainText text = true →
      (∀ ct ∈ more, commentBody 0 ct.1 = true ∧ plainText ct.2 = true) →
      Decodes st (text ++ (renderComments more ++ 60 :: rest)) h := by
  have hstep : ∀ t, st.step (.CharData t) = .ok (.more st) := by
    intro t
    simp [HelloDecoder.step, hst.1, hst.2]
  have htext : ∀ (text tail : List Nat), plainText text = true →
      Decodes st (60 :: tail) h → Decodes st (text ++ 60 :: tail) h := by
    intro text tail hp hd1
    by_cases hne : text = []
    · rw [hne]; exact hd1
    · exact Decodes.token hne (nextToken_text text tail hne hp) (hstep text) hd1
  induction more with
  | nil =>
    intro text hp _
    simp only [renderComments, List.flatMap_nil, List.nil_append]
    exact htext text rest hp hd
  | cons ct ms ih =>
    intro text hp hall
    obtain ⟨hc, ht⟩ := hall ct (List.mem_cons_self ct ms)
    have hrest := ih ct.2 ht (fun x hx => hall x (List.mem_cons_of_mem ct hx))
    have h4 : toBytes "<!--" = [60, 33, 45, 45] := by decide
    have e : text ++ (renderComments (ct :: ms) ++ 60 :: rest)
        = text ++ 60 :: ([33, 45, 45] ++ ct.1 ++ toBytes "-->"
            ++ (ct.2 ++ (renderComments ms ++ 60 :: rest))) := by
      simp only [renderComments, List.flatMap_cons, h4]
      simp
    rw [e]
    apply htext text _ hp
    have e2 : (60 :: ([33, 45, 45] ++ ct.1 ++ toBytes "-->"
            ++ (ct.2 ++ (renderComments ms ++ 60 :: rest))))
        = (toBytes "<!--" ++ ct.1 ++ toBytes "-->")
            ++ (ct.2 ++ (renderComments ms ++ 60 :: rest)) := by
      rw [h4]; simp
    rw [e2]
    refine Decodes.token ?_ (nextToken_comment ct.1 _ hc) rfl hrest
    rw [h4]; simp

/-- A well-formed gap before a tag is passed over where no field is being read. -/
theorem Decodes.gap {st : HelloDecoder} {rest : List Nat} {h : TransportHelloMessage}
    (hst : st.stack ≠ capabilityPath ∧ st.stack ≠ sessionIDPath) (g : Gap)
    (hg : g.wellFormed = true) (hd : Decodes st (60 :: rest) h) :
    Decodes st (g.render ++ 60 :: rest) h := by
  simp only [Gap.wellFormed, Bool.and_eq_true, List.all_eq_true] at hg
  have := Decodes.gap_aux hst hd g.more g.text hg.1 hg.2
  simpa [Gap.render] using this

/-- The digits of a number, with more fuel than the number, before the digits so far. -/
theorem decimalDigits_eq (n : Nat) :
    ∀ (fuel : Nat) (acc : List Nat), n < fuel → decimalDigits fuel n acc = decimal n ++ acc := by
  induction n using Nat.strong_induction_on with
  | _ n ih =>
    intro fuel acc hf
    cases fuel with
    | zero => omega
    | succ f =>
      by_cases h10 : n < 10
      · simp [decimalDigits, decimal, h10]
      · have hdiv : n / 10 < n := Nat.div_lt_self (by omega) (by omega)
        have e1 : decimalDigits (f + 1) n acc
            = decimalDigits f (n / 10) ((48 + n % 10) :: acc) := by
          simp [decimalDigits, h10]
        have e2 : decimal n = decimalDigits n (n / 10) [48 + n % 10] := by
          simp [decimal, decimalDigits, h10]
        rw [e1, e2, ih (n / 10) hdiv f _ (by omega), ih (n / 10) hdiv n _ hdiv]
        simp

/-- The digits of a number: one digit below ten, else the digits of its tenth and the
last digit. -/
theorem decimal_eq (n : Nat) :
    decimal n = if n < 10 then [48 + n] else decimal (n / 10) ++ [48 + n % 10] := by
  by_cases h10 : n < 10
  · simp [decimal, decimalDigits, h10]
  · have hdiv : n / 10 < n := Nat.div_lt_self (by omega) (by omega)
    have e2 : decimal n = decimalDigits n (n / 10) [48 + n % 10] := by
      simp [decimal, decimalDigits, h10]
    rw [e2, decimalDigits_eq (n / 10) n _ hdiv]
    simp [h10]

/-- The digits of a number are decimal digits, and there is one at least. -/
theorem decimal_digits (n : Nat) :
    decimal n ≠ [] ∧ ∀ b ∈ decimal n, 48 ≤ b ∧ b ≤ 57 := by
  induction n using Nat.strong_induction_on with
  | _ n ih =>
    rw [decimal_eq]
    by_cases h10 : n < 10
    · simp only [h10, if_true]
      refine ⟨by simp, ?_⟩
      intro b hb
      simp only [List.mem_singleton] at hb
      omega
    · simp only [h10, if_false]
      have hdiv : n / 10 < n := Nat.div_lt_self (by omega) (by omega)
      refine ⟨by simp, ?_⟩
      intro b hb
      rcases List.mem_append.mp hb with hb | hb
      · exact (ih (n / 10) hdiv).2 b hb
      · simp only [List.mem_singleton] at hb
        omega

/-- Reading digits and one more. -/
theorem parseDigits_append (l : List Nat) (d : Nat) :
    ∀ acc, parseDigits (l ++ [d]) acc
      = (parseDigits l acc).bind (fun v =>
          if 48 ≤ d ∧ d ≤ 57 then some (v * 10 + (d - 48)) else none) := by
  induction l with
  | nil =>
    intro acc
    simp [parseDigits]
  | cons c cs ih =>
    intro acc
    simp only [List.cons_append, parseDigits]
    by_cases hc : 48 ≤ c ∧ c ≤ 57
    · simp only [hc, and_self, if_true]
      exact ih _
    · simp [hc]

/-- Reading the digits of a number gives the number. -/
theorem parseDigits_decimal (n : Nat) : parseDigits (decimal n) 0 = some n := by
  induction n using Nat.strong_induction_on with
  | _ n ih =>
    rw [decimal_eq]
    by_cases h10 : n < 10
    · simp only [h10, if_true, parseDigits]
      have : 48 ≤ 48 + n ∧ 48 + n ≤ 57 := by omega
      simp [this]
    · simp only [h10, if_false]
      have hdiv : n / 10 < n := Nat.div_lt_self (by omega) (by omega)
      rw [parseDigits_append, ih (n / 10) hdiv]
      have : 48 ≤ 48 + n % 10 ∧ 48 + n % 10 ≤ 57 := by omega
      simp only [Option.some_bind, this, and_self, if_true]
      congr 1
      omega

/-- Bytes without `>` hold no `]]>`. -/
theorem noCDEnd_of_no_gt (t : List Nat) :
    ∀ (b0 b1 : Nat), (∀ b ∈ t, b ≠ 62) → noCDEnd b0 b1 t = true := by
  induction t with
  | nil => intro _ _ _; rfl
  | cons b t ih =>
    intro b0 b1 h
    have hb : b ≠ 62 := h b (List.mem_cons_self b t)
    simp only [noCDEnd, Bool.and_eq_true, Bool.not_eq_true', decide_eq_true_eq]
    refine ⟨by simp [hb], ih b1 b (fun c hc => h c (List.mem_cons_of_mem b hc))⟩

/-- The digits of a number are plain character data. -/
theorem plainText_decimal (n : Nat) : plainText (decimal n) = true := by
  have hd := (decimal_digits n).2
  simp only [plainText, Bool.and_eq_true, List.all_eq_true]
  constructor
  · intro b hb
    have := hd b hb
    simp only [plainByte, Bool.and_eq_true, Bool.or_eq_true, decide_eq_true_eq, bne_iff_ne]
    omega
  · exact noCDEnd_of_no_gt _ 0 0 (fun b hb => by have := hd b hb; omega)

/-- Nothing is trimmed from bytes that begin and end with a byte that is not white
space. -/
theorem dropWhile_of_head (p : Nat → Bool) (l : List Nat) (h : ∀ b ∈ l, p b = false) :
    l.dropWhile p = l := by
  cases l with
  | nil => rfl
  | cons a as =>
    rw [List.dropWhile_cons_of_neg]
    simp [h a (List.mem_cons_self a as)]

/-- The digits of a number are not trimmed. -/
theorem trimSpace_decimal (n : Nat) : trimSpace (decimal n) = decimal n := by
  have hd := (decimal_digits n).2
  unfold trimSpace
  simp only
  rw [dropWhile_of_head _ (decimal n), dropWhile_of_head _ (decimal n).reverse,
    List.reverse_reverse]
  · intro b hb
    have := hd b (List.mem_reverse.mp hb)
    simp only [decide_eq_false_iff_not]
    omega
  · intro b hb
    have := hd b hb
    simp only [decide_eq_false_iff_not]
    omega

/-- The function `ParseInt` reads the digits of a number that fits. -/
theorem parseInt_decimal (n : Nat) (hn : n < 2 ^ 63) : parseInt (decimal n) = .ok (n : Int) := by
  have hd := decimal_digits n
  have hp := parseDigits_decimal n
  cases hl : decimal n with
  | nil => exact absurd hl hd.1
  | cons d ds =>
    have hdig := hd.2 d (by rw [hl]; exact List.mem_cons_self d ds)
    rw [hl] at hp
    have h43 : d ≠ 43 := by omega
    have h45 : d ≠ 45 := by omega
    unfold parseInt
    have e1 : (match d :: ds with
      | 43 :: ds => ds
      | 45 :: ds => ds
      | ds => ds) = d :: ds := by
      split
      · rename_i h; simp at h; exact absurd h.1 h43
      · rename_i h; simp at h; exact absurd h.1 h45
      · rfl
    have e2 : (match d :: ds with
      | 45 :: _ => true
      | _ => false) = false := by
      split
      · rename_i h; simp at h; exact absurd h.1 h45
      · rfl
    have hn2 : n < 9223372036854775808 := by
      have e3 : (2 : Nat) ^ 63 = 9223372036854775808 := by norm_num
      omega
    simp only [e1, e2, hp]
    simp [hn2]


/-- In the root no field is being read. -/
theorem root_path : [toBytes "hello"] ≠ capabilityPath ∧ [toBytes "hello"] ≠ sessionIDPath := by
  decide

/-- In `capabilities` no field is being read. -/
theorem capabilities_path :
    [toBytes "capabilities", toBytes "hello"] ≠ capabilityPath
      ∧ [toBytes "capabilities", toBytes "hello"] ≠ sessionIDPath := by
  decide

/-- From the element `session-id` to the end of the root. -/
theorem Decodes.sessionID (caps : List (List Nat)) (sid0 : Int) (data : List Nat)
    (g3 g4 : Gap) (n : Nat) (trailer : List Nat)
    (hg3 : g3.wellFormed = true) (hg4 : g4.wellFormed = true) (hn : n < 2 ^ 63) :
    Decodes ⟨[toBytes "hello"], caps, sid0, data⟩
      (g3.render ++ (toBytes "<session-id>" ++ (decimal n ++ (toBytes "</session-id>"
        ++ (g4.render ++ (toBytes "</hello>" ++ trailer))))))
      { Capabilities := capabilityStrings caps, SessionID := (n : Int) } := by
  have hlt : ∀ (x : String) (r : List Nat) (y : List Nat),
      toBytes x = 60 :: y → toBytes x ++ r = 60 :: (y ++ r) := by
    intro x r y hx; rw [hx]; rfl
  have e1 : toBytes "<session-id>" = 60 :: [115, 101, 115, 115, 105, 111, 110, 45, 105, 100, 62] := by
    decide
  have e2 : toBytes "</session-id>"
      = 60 :: [47, 115, 101, 115, 115, 105, 111, 110, 45, 105, 100, 62] := by decide
  have e3 : toBytes "</hello>" = 60 :: [47, 104, 101, 108, 108, 111, 62] := by decide
  -- the end of the root
  have h5 : Decodes ⟨[toBytes "hello"], caps, (n : Int), decimal n⟩ (toBytes "</hello>" ++ trailer)
      { Capabilities := capabilityStrings caps, SessionID := (n : Int) } := by
    refine Decodes.last (by rw [e3]; simp) (nextToken_end_hello trailer) ?_
    simp [HelloDecoder.step, capabilityPath, sessionIDPath, capabilityStrings]
  have h4 : Decodes ⟨[toBytes "hello"], caps, (n : Int), decimal n⟩ (g4.render ++ (toBytes "</hello>" ++ trailer))
      { Capabilities := capabilityStrings caps, SessionID := (n : Int) } := by
    rw [hlt _ trailer _ e3]
    refine Decodes.gap root_path g4 hg4 ?_
    rw [← hlt _ trailer _ e3]
    exact h5
  -- the end of session-id
  have h3 : Decodes ⟨sessionIDPath, caps, sid0, decimal n⟩
      (toBytes "</session-id>" ++ (g4.render ++ (toBytes "</hello>" ++ trailer)))
      { Capabilities := capabilityStrings caps, SessionID := (n : Int) } := by
    refine Decodes.token (by rw [e2]; simp) (nextToken_end_sessionID _) ?_ h4
    have hne : decimal n ≠ [] := (decimal_digits n).1
    have hsp : sessionIDPath ≠ capabilityPath := by decide
    have htop : sessionIDPath = toBytes "session-id" :: [toBytes "hello"] := rfl
    simp only [HelloDecoder.step, htop]
    rw [← htop]
    simp [hsp, hne, trimSpace_decimal, parseInt_decimal n hn]
  -- the digits
  have h2 : Decodes ⟨sessionIDPath, caps, sid0, []⟩
      (decimal n ++ (toBytes "</session-id>" ++ (g4.render ++ (toBytes "</hello>" ++ trailer))))
      { Capabilities := capabilityStrings caps, SessionID := (n : Int) } := by
    have hs : HelloDecoder.step ⟨sessionIDPath, caps, sid0, []⟩ (.CharData (decimal n))
        = .ok (.more ⟨sessionIDPath, caps, sid0, decimal n⟩) := by
      simp [HelloDecoder.step]
    rw [hlt _ _ _ e2]
    refine Decodes.token (decimal_digits n).1
      (nextToken_text (decimal n) _ (decimal_digits n).1 (plainText_decimal n)) hs ?_
    rw [← hlt _ _ _ e2]
    exact h3
  -- the start of session-id
  have h1 : Decodes ⟨[toBytes "hello"], caps, sid0, data⟩
      (toBytes "<session-id>" ++ (decimal n ++ (toBytes "</session-id>"
        ++ (g4.render ++ (toBytes "</hello>" ++ trailer)))))
      { Capabilities := capabilityStrings caps, SessionID := (n : Int) } := by
    refine Decodes.token (by rw [e1]; simp) (nextToken_start_sessionID _) ?_ h2
    have hp : toBytes "session-id" :: [toBytes "hello"] = sessionIDPath := rfl
    simp [HelloDecoder.step, hp]
  rw [hlt _ _ _ e1]
  refine Decodes.gap root_path g3 hg3 ?_
  rw [← hlt _ _ _ e1]
  exact h1

/-- One `capability` element with its string as character data: the string is added to
the capabilities read. -/
theorem Decodes.capability (acc : List (List Nat)) (sid0 : Int) (data : List Nat)
    (s : List Nat) (rest : List Nat) (h : TransportHelloMessage) (hs : plainText s = true)
    (hd : Decodes ⟨[toBytes "capabilities", toBytes "hello"], acc ++ [s], sid0, s⟩ rest h) :
    Decodes ⟨[toBytes "capabilities", toBytes "hello"], acc, sid0, data⟩
      (toBytes "<capability>" ++ (s ++ (toBytes "</capability>" ++ rest))) h := by
  have e1 : toBytes "<capability>" ≠ [] := by decide
  have e2 : toBytes "</capability>"
      = 60 :: [47, 99, 97, 112, 97, 98, 105, 108, 105, 116, 121, 62] := by decide
  have hpath : toBytes "capability" :: [toBytes "capabilities", toBytes "hello"]
      = capabilityPath := rfl
  -- the end tag
  have h3 : Decodes ⟨capabilityPath, acc, sid0, s⟩ (toBytes "</capability>" ++ rest) h := by
    refine Decodes.token (by rw [e2]; simp) (nextToken_end_capability rest) ?_ hd
    have htop : capabilityPath = toBytes "capability" :: [toBytes "capabilities", toBytes "hello"] :=
      rfl
    simp only [HelloDecoder.step, htop]
    rw [← htop]
    simp
  -- the character data
  have h2 : Decodes ⟨capabilityPath, acc, sid0, []⟩ (s ++ (toBytes "</capability>" ++ rest)) h := by
    by_cases hne : s = []
    · subst hne
      exact h3
    · have hstep : HelloDecoder.step ⟨capabilityPath, acc, sid0, []⟩ (.CharData s)
          = .ok (.more ⟨capabilityPath, acc, sid0, s⟩) := by
        simp [HelloDecoder.step]
      have e : toBytes "</capability>" ++ rest
          = 60 :: ([47, 99, 97, 112, 97, 98, 105, 108, 105, 116, 121, 62] ++ rest) := by
        rw [e2]; rfl
      rw [e]
      refine Decodes.token hne (nextToken_text s _ hne hs) hstep ?_
      rw [← e]
      exact h3
  -- the start tag
  refine Decodes.token e1 (nextToken_start_capability _) ?_ h2
  simp [HelloDecoder.step, hpath]

/-- The `capability` elements with the gaps before them: their strings are added to the
capabilities read, in their order. -/
theorem Decodes.capabilities (caps : List (Gap × Capability)) (sid0 : Int)
    (rest : List Nat) (h : TransportHelloMessage) :
    ∀ (acc : List (List Nat)) (data : List Nat),
      (∀ gc ∈ caps, gc.1.wellFormed = true ∧ plainText (toBytes gc.2) = true) →
      (∀ data1, Decodes ⟨[toBytes "capabilities", toBytes "hello"],
          acc ++ caps.map (fun gc => toBytes gc.2), sid0, data1⟩ (rest) h) →
      Decodes ⟨[toBytes "capabilities", toBytes "hello"], acc, sid0, data⟩
        (renderCapabilities caps ++ rest) h := by
  induction caps with
  | nil =>
    intro acc data _ hd
    simpa [renderCapabilities] using hd data
  | cons gc cs ih =>
    intro acc data hall hd
    obtain ⟨hg, hs⟩ := hall gc (List.mem_cons_self gc cs)
    have htail := ih (acc ++ [toBytes gc.2]) (toBytes gc.2)
      (fun x hx => hall x (List.mem_cons_of_mem gc hx))
      (fun data1 => by
        have := hd data1
        simpa [List.append_assoc] using this)
    have hcap := Decodes.capability acc sid0 data (toBytes gc.2)
      (renderCapabilities cs ++ rest) h hs htail
    have e1 : toBytes "<capability>"
        = 60 :: [99, 97, 112, 97, 98, 105, 108, 105, 116, 121, 62] := by decide
    have e : renderCapabilities (gc :: cs) ++ rest
        = gc.1.render ++ 60 :: ([99, 97, 112, 97, 98, 105, 108, 105, 116, 121, 62]
            ++ (toBytes gc.2 ++ (toBytes "</capability>"
              ++ (renderCapabilities cs ++ rest)))) := by
      simp only [renderCapabilities, List.flatMap_cons, e1]
      simp
    rw [e]
    refine Decodes.gap capabilities_path gc.1 hg ?_
    rw [e1] at hcap
    exact hcap

/-- C13. `GetConfig(ds)` is one call of `Exec` with the single method
`MethodGetConfig(ds)`: it leaves the transport as that call does, and on a transport that
records its calls these are one `Send` of the encoded `get-config` request and, unless
that failed, one `Recieve`. If `Exec` returns an error, with or without a reply,
`GetConfig` returns that error and no bytes; otherwise it returns exactly the bytes of
`Data` of the reply. With a decoder that captures the inner content, the reply
`<rpc-reply><data>X</data></rpc-reply>` yields the bytes `<data>X</data>`. -/
theorem GetConfig_one_Exec {σ : Type} (c : Client σ) (t : Transport σ) (id : Int)
    (caps : List Capability) (w : Bool)
    (xmlUnmarshal : List Nat → RPCReply → Except GoError RPCReply)
    (rnd : List Nat) (ds : String) (st : σ) :
    (c.GetConfig xmlUnmarshal rnd ds st).2
        = (c.session.Exec xmlUnmarshal rnd [MethodGetConfig ds] st).2
      ∧ (∀ reply err, (c.session.Exec xmlUnmarshal rnd [MethodGetConfig ds] st).1
            = (reply, some err) →
          (c.GetConfig xmlUnmarshal rnd ds st).1 = (none, some err))
      ∧ (∀ reply, (c.session.Exec xmlUnmarshal rnd [MethodGetConfig ds] st).1
            = (some reply, none) →
          (c.GetConfig xmlUnmarshal rnd ds st).1 = (some reply.Data, none))
      ∧ (c.session.Exec xmlUnmarshal rnd [MethodGetConfig ds] st).1 ≠ (none, none)
      ∧ ((({ session := { ID := id, ServerCapabilities := caps, Transport := t.logged,
                          ErrOnWarnings := w } } : Client (σ × List Call)).GetConfig
            xmlUnmarshal rnd ds (st, [])).2.2
          = if (t.Send (toBytes ("<rpc message-id=\"" ++ rpcUUID rnd ++ "\">"
                  ++ "<get-config><source><" ++ ds ++ "/></source></get-config>"
                  ++ "</rpc>")) st).1.isSome
            then [Call.Send (toBytes ("<rpc message-id=\"" ++ rpcUUID rnd ++ "\">"
                  ++ "<get-config><source><" ++ ds ++ "/></source></get-config>"
                  ++ "</rpc>"))]
            else [Call.Send (toBytes ("<rpc message-id=\"" ++ rpcUUID rnd ++ "\">"
                  ++ "<get-config><source><" ++ ds ++ "/></source></get-config>"
                  ++ "</rpc>")), Call.Recieve])
      ∧ (({ session := { ID := 19313, ServerCapabilities := [], ErrOnWarnings := false
                         Transport := scriptedTransport (.ok deviceHello) none } } :
            Client (List (List Nat))).GetConfig
          (decodeReplyOf (toBytes "<rpc-reply><data>X</data></rpc-reply>")
            (toBytes "<data>X</data>"))
          (List.replicate 16 0) "running"
          [toBytes "<rpc-reply><data>X</data></rpc-reply>"]).1
          = (some (toBytes "<data>X</data>"), none) := by
  have hstate : ∀ (c : Client σ), (c.GetConfig xmlUnmarshal rnd ds st).2
      = (c.session.Exec xmlUnmarshal rnd [MethodGetConfig ds] st).2 := by
    intro c
    unfold Client.GetConfig
    rcases c.session.Exec xmlUnmarshal rnd [MethodGetConfig ds] st with ⟨⟨_ | r, _ | e⟩, st1⟩ <;>
      rfl
  refine ⟨hstate c, ?_, ?_, Exec_not_nil_nil _ _ _ _ _, ?_, by decide⟩
  · intro reply err h
    unfold Client.GetConfig
    rcases hx : c.session.Exec xmlUnmarshal rnd [MethodGetConfig ds] st with ⟨⟨r, e⟩, st1⟩
    rw [hx] at h
    simp only [Prod.mk.injEq] at h
    obtain ⟨rfl, rfl⟩ := h
    cases r <;> rfl
  · intro reply h
    unfold Client.GetConfig
    rcases hx : c.session.Exec xmlUnmarshal rnd [MethodGetConfig ds] st with ⟨⟨r, e⟩, st1⟩
    rw [hx] at h
    simp only [Prod.mk.injEq] at h
    obtain ⟨rfl, rfl⟩ := h
    rfl
  · have hreq : xmlMarshalRPCMessage (NewRPCMessage rnd [MethodGetConfig ds])
        = .ok ("<rpc message-id=\"" ++ rpcUUID rnd ++ "\">"
            ++ "<get-config><source><" ++ ds ++ "/></source></get-config>" ++ "</rpc>") := by
      rw [xmlMarshalRPCMessage_eq]
      congr 1
      apply String.ext
      simp [String.data_append, MethodGetConfig, RPCMethodRaw]
    have hst : ∀ (c : Client (σ × List Call)) (s0 : σ × List Call),
        (c.GetConfig xmlUnmarshal rnd ds s0).2
          = (c.session.Exec xmlUnmarshal rnd [MethodGetConfig ds] s0).2 := by
      intro c s0
      unfold Client.GetConfig
      rcases c.session.Exec xmlUnmarshal rnd [MethodGetConfig ds] s0 with
        ⟨⟨_ | r, _ | e⟩, st1⟩ <;> rfl
    rw [hst]
    exact Exec_logged_calls t id caps w xmlUnmarshal rnd [MethodGetConfig ds] st _ hreq

/-! ## Distinct identifiers -/

/-- C14. Two draws of 16 bytes that differ in a byte other than bytes 6 and 8, or in the
low nibble of byte 6, or in the low six bits of byte 8, that is in a bit other than the
six forced ones, have different identifiers. -/
theorem rpcUUID_injective (b c : List Nat) (hbl : b.length = 16) (hcl : c.length = 16)
    (hb : ∀ x ∈ b, x < 256) (hc : ∀ x ∈ c, x < 256)
    (hdiff : (∃ i < 16, i ≠ 6 ∧ i ≠ 8 ∧ b.getD i 0 ≠ c.getD i 0)
      ∨ b.getD 6 0 % 16 ≠ c.getD 6 0 % 16 ∨ b.getD 8 0 % 64 ≠ c.getD 8 0 % 64) :
    rpcUUID b ≠ rpcUUID c := by
  obtain ⟨b0, b1, b2, b3, b4, b5, b6, b7, b8, b9, b10, b11, b12, b13, b14, b15, rfl⟩ :=
    list16 b hbl
  obtain ⟨c0, c1, c2, c3, c4, c5, c6, c7, c8, c9, c10, c11, c12, c13, c14, c15, rfl⟩ :=
    list16 c hcl
  intro heq
  have hd := congrArg String.data heq
  rw [rpcUUID_data _ _ _ _ _ _ _ _ _ _ _ _ _ _ _ _ hb,
    rpcUUID_data _ _ _ _ _ _ _ _ _ _ _ _ _ _ _ _ hc] at hd
  simp only [List.cons.injEq, and_true, true_and] at hd
  simp only [List.mem_cons, List.mem_singleton, List.not_mem_nil, or_false, forall_eq_or_imp,
    forall_eq] at hb hc
  obtain ⟨p0, p1, p2, p3, p4, p5, p6, p7, p8, p9, p10, p11, p12, p13, p14, p15⟩ := hb
  obtain ⟨q0, q1, q2, q3, q4, q5, q6, q7, q8, q9, q10, q11, q12, q13, q14, q15⟩ := hc
  obtain ⟨e0h, e0l, e1h, e1l, e2h, e2l, e3h, e3l, e4h, e4l, e5h, e5l, e6l, e7h, e7l,
    e8h, e8l, e9h, e9l, e10h, e10l, e11h, e11l, e12h, e12l, e13h, e13l, e14h, e14l,
    e15h, e15l⟩ := hd
  rcases hdiff with ⟨i, hi, h6, h8, hne⟩ | hne | hne
  · interval_cases i
    · exact hne (byte_of_digits _ _ p0 q0 e0h e0l)
    · exact hne (byte_of_digits _ _ p1 q1 e1h e1l)
    · exact hne (byte_of_digits _ _ p2 q2 e2h e2l)
    · exact hne (byte_of_digits _ _ p3 q3 e3h e3l)
    · exact hne (byte_of_digits _ _ p4 q4 e4h e4l)
    · exact hne (byte_of_digits _ _ p5 q5 e5h e5l)
    · exact h6 rfl
    · exact hne (byte_of_digits _ _ p7 q7 e7h e7l)
    · exact h8 rfl
    · exact hne (byte_of_digits _ _ p9 q9 e9h e9l)
    · exact hne (byte_of_digits _ _ p10 q10 e10h e10l)
    · exact hne (byte_of_digits _ _ p11 q11 e11h e11l)
    · exact hne (byte_of_digits _ _ p12 q12 e12h e12l)
    · exact hne (byte_of_digits _ _ p13 q13 e13h e13l)
    · exact hne (byte_of_digits _ _ p14 q14 e14h e14l)
    · exact hne (byte_of_digits _ _ p15 q15 e15h e15l)
  · exact hne (nibble_of_digit _ _ e6l)
  · exact hne (variant_of_digits _ _ e8h e8l)

/-- Two draws that differ in the lowest bit of byte 6 alone. -/
theorem rpcUUID_injective_witness :
    rpcUUID (List.replicate 16 0) ≠ rpcUUID ((List.replicate 16 0).set 6 1)
      ∧ rpcUUID ((List.replicate 16 0).set 6 1) = "00000000-0000-4100-8000-000000000000" :=
  ⟨rpcUUID_injective (List.replicate 16 0) ((List.replicate 16 0).set 6 1) (by decide)
    (by decide) (by decide) (by decide) (Or.inr (Or.inl (by decide))), by decide⟩

/-! ## The canned methods -/

/-- C15. For every name `s` the three constructors render a fixed fragment with `s`
inserted unchanged as the name of an empty element. -/
theorem canned_methods (s : String) :
    (RPCMethodLock s).MarshalRPCMethod = "<lock><target><" ++ s ++ "/></target></lock>"
      ∧ (MethodUnlock s).MarshalRPCMethod = "<unlock><target><" ++ s ++ "/></target></unlock>"
      ∧ (MethodGetConfig s).MarshalRPCMethod
          = "<get-config><source><" ++ s ++ "/></source></get-config>"
      ∧ (MethodGetConfig "running").MarshalRPCMethod
          = "<get-config><source><running/></source></get-config>"
      ∧ (RPCMethodLock "candidate").MarshalRPCMethod
          = "<lock><target><candidate/></target></lock>" :=
  ⟨rfl, rfl, rfl, by decide, by decide⟩

/-! ## The earlier transport -/

/-- C16, the behaviour of the code. `transportBasicIO.Send` returns nil whatever its
writes return, also on a stream whose first write takes no byte and fails. -/
theorem legacy_Send_drops_errors :
    (∀ (t : transportBasicIO) (d : List Nat), (t.Send d).1 = none)
      ∧ ((({ rwc := { faults := [some ⟨0, .stream 5⟩] } } : transportBasicIO).rwc.Write
            [60, 97, 47, 62]).1.2 = some (.stream 5))
      ∧ (({ rwc := { faults := [some ⟨0, .stream 5⟩] } } : transportBasicIO).Send
            [60, 97, 47, 62]).1 = none
      ∧ (({ rwc := { faults := [some ⟨0, .stream 5⟩] } } : transportBasicIO).Send
            [60, 97, 47, 62]).2.rwc.written = [93, 93, 62, 93, 93, 62, 10] :=
  ⟨fun _ _ => rfl, by decide, by decide, by decide⟩

/-- The two loops agree on success and on the reads they leave. -/
theorem loops_agree (m : List Nat) (reads : List ReadResult) (buf out : List Nat) :
    ( transportBasicIO.WaitForBytes.loop m reads buf out).1.toOption
        = (WaitForFunc.loop (fun x => (bytesIndex x m, none)) reads buf out).1.toOption
      ∧ ( transportBasicIO.WaitForBytes.loop m reads buf out).2
        = (WaitForFunc.loop (fun x => (bytesIndex x m, none)) reads buf out).2 := by
  induction reads generalizing buf out with
  | nil => simp [ transportBasicIO.WaitForBytes.loop, WaitForFunc.loop, Except.toOption]
  | cons r rest ih =>
    rw [ transportBasicIO.WaitForBytes.loop, WaitForFunc.loop]
    by_cases hn : r.data.length = 0
    · simp [hn, Except.toOption]
    · simp only [hn, if_false]
      rcases herr : r.err with _ | e
      · simp only
        by_cases hidx : bytesIndex (fillBuf buf r.data) m > -1
        · simp [hidx]
        · simp only [hidx, if_false]
          exact ih _ _
      · cases e <;> simp [Except.toOption]

/-- C18. For every pattern and every sequence of read results, the earlier
`transportBasicIO.WaitForBytes` and `transportBase.WaitForBytes` both fail or both
succeed with the same bytes, and they leave the same reads to come. -/
theorem WaitForBytes_agree (m : List Nat) (rwc : ReadWriteCloser) :
    (((⟨rwc, false⟩ : transportBasicIO).WaitForBytes m).1.toOption
        = ((⟨rwc, false⟩ : transportBase).WaitForBytes m).1.toOption)
      ∧ ((⟨rwc, false⟩ : transportBasicIO).WaitForBytes m).2.rwc
        = ((⟨rwc, false⟩ : transportBase).WaitForBytes m).2.rwc
      ∧ (∀ out, ((⟨rwc, false⟩ : transportBasicIO).WaitForBytes m).1 = .ok out ↔
          ((⟨rwc, false⟩ : transportBase).WaitForBytes m).1 = .ok out)
      ∧ ((∃ e, ((⟨rwc, false⟩ : transportBasicIO).WaitForBytes m).1 = .error e) ↔
          ∃ e, ((⟨rwc, false⟩ : transportBase).WaitForBytes m).1 = .error e) := by
  have h := loops_agree m rwc.reads newBuf []
  unfold transportBasicIO.WaitForBytes transportBase.WaitForBytes transportBase.WaitForFunc
  simp only
  generalize transportBasicIO.WaitForBytes.loop m rwc.reads newBuf [] = a at h
  generalize WaitForFunc.loop (fun x => (bytesIndex x m, none)) rwc.reads newBuf [] = b at h
  rcases a with ⟨a1, a2⟩
  rcases b with ⟨b1, b2⟩
  obtain ⟨h1, h2⟩ := h
  simp only at h1 h2
  subst h2
  refine ⟨h1, rfl, ?_, ?_⟩
  · intro out
    cases a1 <;> cases b1 <;> simp_all [Except.toOption]
  · cases a1 <;> cases b1 <;> simp_all [Except.toOption]

/-! ## The framing round trip -/

/-- C17 (as amended). For every payload `d` such that `d` followed by the delimiter holds
the delimiter nowhere before its end, and such that the delimiter written after `d` does
not cross a multiple of 4096 bytes, reading back what `Send(d)` wrote through `Recieve`,
from a reader that fills every read of 4096 bytes as far as data remains, returns exactly
`d` without error. -/
theorem Send_Recieve_round_trip (d : List Nat)
    (hfirst : FirstOccurrence (toBytes TransportMessageSeparator)
      (d ++ toBytes TransportMessageSeparator) d.length)
    (hfit : d.length % 4096 + 6 ≤ 4096) :
    ((newTestTransport ((newTestTransport []).Send d).2.rwc.written).Recieve).1 = .ok d := by
  have hw : ((newTestTransport []).Send d).2.rwc.written
      = d ++ toBytes TransportMessageSeparator ++ [10] := by
    have := (Send_no_faults (newTestTransport []) d rfl).2.1
    simpa [newTestTransport] using this
  have h6 : (toBytes TransportMessageSeparator).length = 6 := by decide
  rw [hw]
  unfold transportBase.Recieve transportBase.WaitForBytes transportBase.WaitForFunc
    newTestTransport bytesReader
  simp only
  rw [loop_bytesReader (toBytes TransportMessageSeparator) (by decide) _ _ d.length newBuf []
    (Nat.le_refl _) (List.length_replicate 4096 0) (first_in_frame _ d hfirst) (by rw [h6]; exact hfit)]
  rw [List.nil_append, List.append_assoc, List.take_left]

/-- A payload of 4090 bytes: the delimiter ends with the first read of 4096 bytes. -/
theorem Send_Recieve_round_trip_witness :
    ((newTestTransport ((newTestTransport []).Send (List.replicate 4090 120)).2.rwc.written
        ).Recieve).1 = .ok (List.replicate 4090 120) :=
  Send_Recieve_round_trip (List.replicate 4090 120)
    ((indexOfSub_some_iff _ _ _).mp (by decide!)) (by decide!)

/-- C17, counterexample. The payload of 4093 bytes `x` does not contain the delimiter;
`Send` writes it with the delimiter and a newline, the reader delivers 4096 bytes and then
4 bytes, the delimiter is split between the two reads, and `Recieve` fails. The payload
`]]>` does not contain the delimiter either, and `Recieve` returns the empty payload for
it: with the delimiter behind it the frame begins with a delimiter. -/
theorem Send_Recieve_round_trip_fails :
    (∀ k, ¬ toBytes TransportMessageSeparator <+: (List.replicate 4093 120).drop k)
      ∧ ((newTestTransport ((newTestTransport []).Send (List.replicate 4093 120)).2.rwc.written
          ).Recieve).1 = .error (.errorf "transport base read no data")
      ∧ (∀ k, ¬ toBytes TransportMessageSeparator <+: (toBytes "]]>").drop k)
      ∧ ((newTestTransport ((newTestTransport []).Send (toBytes "]]>")).2.rwc.written
          ).Recieve).1 = .ok [] :=
  ⟨(indexOfSub_none_iff _ _).mp (by decide!), by decide!,
    (indexOfSub_none_iff _ _).mp (by decide), by decide!⟩

end Netconf
